import Mathlib

/-!
Verification development for the RobotVisualizer data-processing core
(`utils/data_processor.py`, `utils/node_visualization.py`,
`utils/visualization_utils.py`, `app.py`).

The Python code is shallowly embedded:
* JSON values are the inductive `Json`.
* Python floats are modelled exactly by `Dec`, a decimal
  mantissa/exponent pair (value = `man / 10 ^ exp`).  The only numeric
  operations the embedded code performs are addition, division by `1e9`,
  comparison and truncation, all of which are exact on decimals, so no
  floating-point rounding behaviour is lost that the claims depend on.
* Python exceptions are modelled by the `Except PyErr` monad; operations
  such as `x in c`, `c[k]`, `float(x)`, `len(x)` are translated by
  helpers (`pyContainsStr`, `pyIndexStr`, `pyFloat`, `pyLen`, ...) that
  reproduce CPython's success/`TypeError`/`ValueError`/`KeyError`
  behaviour on each `Json` shape.
* Python dicts are modelled as insertion-ordered association lists;
  hashable dict keys are the type `HKey` (with `True`/`1`/`1.0`
  identified, as in CPython); unhashable keys raise.
-/

namespace RV

/-! ### Exact decimal numbers (model of Python floats) -/

/-- Exact decimal number: the rational `man / 10 ^ exp`.  Values produced
by the embedded arithmetic are kept in normal form (`man` not divisible
by 10 unless `exp = 0`), but all comparisons are semantic, so theorems
quantifying over arbitrary `Dec` values do not depend on normal form. -/
structure Dec where
  man : Int
  exp : Nat
deriving DecidableEq

def Dec.ofInt (n : Int) : Dec := ⟨n, 0⟩

def Dec.ofNat (n : Nat) : Dec := ⟨(n : Int), 0⟩

instance : OfNat Dec n := ⟨Dec.ofNat n⟩

/-- Strip factors of 10 shared by mantissa and exponent. -/
def Dec.normAux : Int → Nat → Dec
  | m, 0 => ⟨m, 0⟩
  | m, e + 1 => if m % 10 == 0 then Dec.normAux (m / 10) e else ⟨m, e + 1⟩

def Dec.norm (d : Dec) : Dec := Dec.normAux d.man d.exp

/-- Semantic equality: `a.man / 10^a.exp = b.man / 10^b.exp`. -/
def Dec.beq (a b : Dec) : Bool := a.man * (10 : Int) ^ b.exp == b.man * (10 : Int) ^ a.exp

def Dec.le (a b : Dec) : Bool := a.man * (10 : Int) ^ b.exp ≤ b.man * (10 : Int) ^ a.exp

def Dec.lt (a b : Dec) : Bool := a.man * (10 : Int) ^ b.exp < b.man * (10 : Int) ^ a.exp

/-- Exact addition. -/
def Dec.add (a b : Dec) : Dec :=
  Dec.norm ⟨a.man * (10 : Int) ^ b.exp + b.man * (10 : Int) ^ a.exp, a.exp + b.exp⟩

/-- Exact division by `1e9` (the only division in the embedded code). -/
def Dec.divE9 (a : Dec) : Dec := Dec.norm ⟨a.man, a.exp + 9⟩

/-- Truncation toward zero, the behaviour of Python `int()` on a float.
`Int.div` is T-division, matching CPython. -/
def Dec.trunc (a : Dec) : Int := Int.tdiv a.man ((10 : Int) ^ a.exp)

/-- Interpretation of a decimal as a rational number. -/
def Dec.toRat (a : Dec) : ℚ := (a.man : ℚ) / (10 : ℚ) ^ a.exp

/-! ### JSON values -/

/-- Parsed JSON values (output of `json.loads`).  Objects keep key order
and are assumed unique-keyed, as `json.loads` produces. -/
inductive Json where
  | null
  | bool (b : Bool)
  | num (d : Dec)
  | str (s : String)
  | arr (xs : List Json)
  | obj (kvs : List (String × Json))

/-- Python error kinds surfaced by the embedded operations. -/
inductive PyErr where
  | typeError
  | valueError
  | keyError
deriving DecidableEq

/-- Python truthiness. -/
def truthy : Json → Bool
  | .null => false
  | .bool b => b
  | .num d => !(d.beq 0)
  | .str s => s ≠ ""
  | .arr xs => !xs.isEmpty
  | .obj kvs => !kvs.isEmpty

def isObj : Json → Bool
  | .obj _ => true
  | _ => false

def isArr : Json → Bool
  | .arr _ => true
  | _ => false

/-- First-occurrence lookup in an object (objects are unique-keyed). -/
def jget? (kvs : List (String × Json)) (k : String) : Option Json :=
  (kvs.find? (·.1 == k)).map (·.2)

/-! ### Deep Python equality (`==`) on JSON values

CPython compares booleans and numbers across types (`True == 1`,
`1 == 1.0`), strings by content, lists pointwise and dicts as key-value
maps; values of different categories are unequal. -/

def numVal : Json → Option Dec
  | .bool b => some (if b then 1 else 0)
  | .num d => some d
  | _ => none

mutual
def pyEq : Json → Json → Bool
  | .null, .null => true
  | .str a, .str b => a == b
  | .arr a, .arr b => pyEqList a b
  | .obj a, .obj b => a.length == b.length && pyEqKVs a b
  | a, b =>
      match numVal a, numVal b with
      | some x, some y => x.beq y
      | _, _ => false
def pyEqList : List Json → List Json → Bool
  | [], [] => true
  | x :: xs, y :: ys => pyEq x y && pyEqList xs ys
  | _, _ => false
def pyEqKVs : List (String × Json) → List (String × Json) → Bool
  | [], _ => true
  | (k, v) :: rest, b =>
      (match jget? b k with
       | some w => pyEq v w
       | none => false) && pyEqKVs rest b
end

/-! ### Python comparison (`<`) and `min` -/

/-- Lexicographic string comparison by code point (Python `<`). -/
def charListLt : List Char → List Char → Bool
  | [], [] => false
  | [], _ :: _ => true
  | _ :: _, [] => false
  | a :: as, b :: bs => if a = b then charListLt as bs else decide (a.toNat < b.toNat)

mutual
/-- Python `<`: numbers and booleans compare numerically, strings
lexicographically, lists lexicographically; anything else raises
`TypeError`. -/
def pyLt : Json → Json → Except PyErr Bool
  | .str a, .str b => .ok (charListLt a.data b.data)
  | .arr a, .arr b => pyLtList a b
  | a, b =>
      match numVal a, numVal b with
      | some x, some y => .ok (x.lt y)
      | _, _ => .error .typeError
def pyLtList : List Json → List Json → Except PyErr Bool
  | [], [] => .ok false
  | [], _ :: _ => .ok true
  | _ :: _, [] => .ok false
  | x :: xs, y :: ys => if pyEq x y then pyLtList xs ys else pyLt x y
end

/-- Python `min` over a nonempty sequence: keeps the first element and
replaces it whenever a later element compares strictly smaller. -/
def pyMinList : List Json → Except PyErr Json
  | [] => .error .valueError
  | x :: xs => xs.foldlM (fun m y => do if (← pyLt y m) then pure y else pure m) x

def pyMaxList : List Json → Except PyErr Json
  | [] => .error .valueError
  | x :: xs => xs.foldlM (fun m y => do if (← pyLt m y) then pure y else pure m) x

/-! ### Python container operations -/

/-- Substring test on character lists. -/
def strContainsL (hay needle : List Char) : Bool :=
  (List.range (hay.length + 1)).any (fun i => needle.isPrefixOf (hay.drop i))

/-- Python `needle in hay` for strings: substring containment. -/
def strContains (hay needle : String) : Bool := strContainsL hay.data needle.data

/-- `s.startswith(p)`. -/
def strStartsWith (s p : String) : Bool := p.data.isPrefixOf s.data

/-- `s.split('/')` on the character list, leftmost-first. -/
def splitOnSlash : List Char → List (List Char)
  | [] => [[]]
  | c :: cs =>
      let r := splitOnSlash cs
      if c = '/' then [] :: r
      else
        match r with
        | [] => [[c]]
        | g :: gs => (c :: g) :: gs

/-- `s.split('/')[-1]`. -/
def lastComponent (s : String) : String := String.mk ((splitOnSlash s.data).getLastD [])

/-- Python `key in c` for a string key: dict key lookup, substring test on
strings, element equality on lists; `TypeError` on anything else. -/
def pyContainsStr (c : Json) (key : String) : Except PyErr Bool :=
  match c with
  | .obj kvs => .ok (kvs.any (·.1 == key))
  | .str s => .ok (strContains s key)
  | .arr xs => .ok (xs.any (fun x => pyEq x (.str key)))
  | _ => .error .typeError

/-- Python `c[key]` for a string key: dict lookup (`KeyError` when
absent); strings and lists reject string subscripts with `TypeError`. -/
def pyIndexStr (c : Json) (key : String) : Except PyErr Json :=
  match c with
  | .obj kvs =>
      match jget? kvs key with
      | some v => .ok v
      | none => .error .keyError
  | _ => .error .typeError

/-- Python iteration (`for x in c`): lists yield elements, strings yield
one-character strings, dicts yield their keys; `TypeError` otherwise. -/
def pyIter : Json → Except PyErr (List Json)
  | .arr xs => .ok xs
  | .str s => .ok (s.data.map (fun c => .str (String.mk [c])))
  | .obj kvs => .ok (kvs.map (fun kv => .str kv.1))
  | _ => .error .typeError

/-- Python `len(c)`. -/
def pyLen : Json → Except PyErr Nat
  | .arr xs => .ok xs.length
  | .str s => .ok s.length
  | .obj kvs => .ok kvs.length
  | _ => .error .typeError

/-- `.get(k, default)` on a value expected to be a dict; non-dicts lack
the attribute (`AttributeError`, folded into `typeError` here). -/
def pyGetD (c : Json) (key : String) (dflt : Json) : Except PyErr Json :=
  match c with
  | .obj kvs => .ok ((jget? kvs key).getD dflt)
  | _ => .error .typeError

/-! ### Numeric coercions -/

def isDigit (c : Char) : Bool := '0' ≤ c && c ≤ '9'

def digitsToNat : List Char → Nat
  | [] => 0
  | c :: cs => (c.toNat - '0'.toNat) * 10 ^ cs.length + digitsToNat cs

/-- Parse an optionally signed run of decimal digits (model of Python
`int(str)`; underscores and exotic spellings are out of scope). -/
def parseIntCore (cs : List Char) : Option Int :=
  match cs with
  | '-' :: rest => if rest ≠ [] && rest.all isDigit then some (-(digitsToNat rest : Int)) else none
  | '+' :: rest => if rest ≠ [] && rest.all isDigit then some ((digitsToNat rest : Int)) else none
  | rest => if rest ≠ [] && rest.all isDigit then some ((digitsToNat rest : Int)) else none

def trimSpaces (cs : List Char) : List Char :=
  (cs.dropWhile (· = ' ')).reverse.dropWhile (· = ' ') |>.reverse

def strToInt (s : String) : Option Int := parseIntCore (trimSpaces s.data)

/-- Parse a decimal literal `[sign] digits [. digits]` (model of Python
`float(str)`; exponents and `inf`/`nan` spellings are out of scope). -/
def parseDecCore (cs : List Char) : Option Dec :=
  let signed : List Char → Option (Bool × List Char) := fun l =>
    match l with
    | '-' :: rest => some (true, rest)
    | '+' :: rest => some (false, rest)
    | rest => some (false, rest)
  match signed cs with
  | some (neg, body) =>
      match body.splitOn '.' with
      | [ip] =>
          if ip ≠ [] && ip.all isDigit then
            some ⟨(if neg then -1 else 1) * (digitsToNat ip : Int), 0⟩
          else none
      | [ip, fp] =>
          if (ip ≠ [] || fp ≠ []) && ip.all isDigit && fp.all isDigit then
            some (Dec.norm ⟨(if neg then -1 else 1) *
              ((digitsToNat ip : Int) * (10 : Int) ^ fp.length + (digitsToNat fp : Int)),
              fp.length⟩)
          else none
      | _ => none
  | none => none

def strToDec (s : String) : Option Dec := parseDecCore (trimSpaces s.data)

/-- Python `float(x)`: numbers pass through, booleans become 0/1,
strings are parsed (`ValueError` on failure), anything else raises
`TypeError`. -/
def pyFloat : Json → Except PyErr Dec
  | .num d => .ok d
  | .bool b => .ok (if b then 1 else 0)
  | .str s =>
      match strToDec s with
      | some d => .ok d
      | none => .error .valueError
  | _ => .error .typeError

/-- Python `int(x)` as a total partial-function: `none` models the
`ValueError`/`TypeError` outcomes (which the embedded call sites catch). -/
def pyTryInt : Json → Option Int
  | .num d => some d.trunc
  | .bool b => some (if b then 1 else 0)
  | .str s => strToInt s
  | _ => none

/-! ### Hashable dict keys

CPython hashes `True` together with `1` and `1.0`; lists and dicts are
unhashable and raise `TypeError` when used as keys. -/

inductive HKey where
  | null
  | num (d : Dec)
  | str (s : String)

/-- Semantic key equality (numbers compared by value). -/
def HKey.beq : HKey → HKey → Bool
  | .null, .null => true
  | .num a, .num b => a.beq b
  | .str a, .str b => a == b
  | _, _ => false

def toHKey : Json → Except PyErr HKey
  | .null => .ok .null
  | .bool b => .ok (.num (if b then 1 else 0))
  | .num d => .ok (.num d)
  | .str s => .ok (.str s)
  | _ => .error .typeError

/-! ### Python `str()` / `repr()`

Used only by the validator's substring heuristic.  String rendering of
numbers is approximated (digit strings cannot contain the alphabetic
indicator words the heuristic searches for); string escapes inside
`repr` are not modelled. -/

def decRepr (d : Dec) : String :=
  if d.exp == 0 then toString d.man else toString d.man ++ "e-" ++ toString d.exp

mutual
def pyRepr : Json → String
  | .null => "None"
  | .bool true => "True"
  | .bool false => "False"
  | .num d => decRepr d
  | .str s => "'" ++ s ++ "'"
  | .arr xs => "[" ++ pyReprList xs ++ "]"
  | .obj kvs => "\x7b" ++ pyReprKVs kvs ++ "\x7d"
def pyReprList : List Json → String
  | [] => ""
  | [x] => pyRepr x
  | x :: y :: xs => pyRepr x ++ ", " ++ pyReprList (y :: xs)
def pyReprKVs : List (String × Json) → String
  | [] => ""
  | [(k, v)] => "'" ++ k ++ "': " ++ pyRepr v
  | (k, v) :: e :: rest => "'" ++ k ++ "': " ++ pyRepr v ++ ", " ++ pyReprKVs (e :: rest)
end

/-- Python `str(x)`: strings render without quotes at top level. -/
def pyStrTop : Json → String
  | .str s => s
  | v => pyRepr v

/-! ### `validate_json_data` (`data_processor.py` lines 6-43)

The validator parses the upload and tests three heuristics in order; all
of its operations are total on parsed JSON, and its `except` clause
turns a parse failure into `False`, so it is a boolean function. -/

/-- One ROSBridge-shaped record: a dict carrying `op`, `topic`, `msg`. -/
def hasOpTopicMsg (item : Json) : Bool :=
  match item with
  | .obj kvs => (jget? kvs "op").isSome && (jget? kvs "topic").isSome && (jget? kvs "msg").isSome
  | _ => false

/-- Heuristic 1: non-empty list of dicts, one of the first 10 elements
carrying `op`, `topic` and `msg`. -/
def rosBridgeHeuristic (data : Json) : Bool :=
  match data with
  | .arr xs => !xs.isEmpty && xs.all isObj && (xs.take 10).any hasOpTopicMsg
  | _ => false

/-- Heuristic 2: a dict containing any of `metadata`, `topics`,
`messages`. -/
def dictHeuristic (data : Json) : Bool :=
  match data with
  | .obj kvs => ["metadata", "topics", "messages"].any (fun k => kvs.any (·.1 == k))
  | _ => false

/-- Heuristic 3: the string rendering of the value contains one of the
robot-state indicator words. -/
def indicatorHeuristic (data : Json) : Bool :=
  ["pose", "position", "orientation", "twist", "joint_states"].any
    (fun ind => strContains (pyStrTop data) ind)

def validateJsonData (data : Json) : Bool :=
  if rosBridgeHeuristic data then true
  else if dictHeuristic data then true
  else if indicatorHeuristic data then true
  else false

/-! ### Shared message-shape helpers -/

/-- The publish guard `"op" in m and m["op"] == "publish" and "topic" in
m and "msg" in m` evaluated on a dict record; returns the topic and
message payload when it passes.  (Only the exact string `"publish"`
compares equal to `"publish"` in Python.) -/
def publishParts (m : Json) : Option (Json × Json) :=
  match m with
  | .obj kvs =>
      match jget? kvs "op", jget? kvs "topic", jget? kvs "msg" with
      | some (.str o), some t, some mc => if o == "publish" then some (t, mc) else none
      | _, _, _ => none
  | _ => none

/-- The repeated header-stamp fragment

    if "header" in msg and "stamp" in msg["header"]:
        stamp = msg["header"]["stamp"]
        if "secs" in stamp and "nsecs" in stamp:
            ts = float(stamp["secs"]) + float(stamp["nsecs"]) / 1e9

over a message dict; returns `none` when any membership test fails, the
stamp value when all pass, and propagates Python errors raised by the
membership tests, subscripts or coercions. -/
def stampOf (mkvs : List (String × Json)) : Except PyErr (Option Dec) := do
  match jget? mkvs "header" with
  | none => .ok none
  | some h =>
      let hasStamp ← pyContainsStr h "stamp"
      if hasStamp then
        let stamp ← pyIndexStr h "stamp"
        let s1 ← pyContainsStr stamp "secs"
        if s1 then
          let s2 ← pyContainsStr stamp "nsecs"
          if s2 then
            let vs ← pyIndexStr stamp "secs"
            let vn ← pyIndexStr stamp "nsecs"
            let qs ← pyFloat vs
            let qn ← pyFloat vn
            .ok (some (qs.add qn.divE9))
          else .ok none
        else .ok none
      else .ok none

/-! ### `extract_time_range` (`data_processor.py` lines 83-138) -/

/-- Python `min` over a nonempty float list (first element, replaced by
strictly smaller later elements). -/
def decListMin : List Dec → Dec
  | [] => 0
  | x :: xs => xs.foldl (fun m y => if y.lt m then y else m) x

def decListMax : List Dec → Dec
  | [] => 0
  | x :: xs => xs.foldl (fun m y => if m.lt y then y else m) x

/-- One iteration of the ROSBridge-branch timestamp collection. -/
def timeRangeStep (acc : List Dec) (m : Json) : Except PyErr (List Dec) :=
  match m with
  | .obj kvs =>
      match jget? kvs "msg" with
      | some (.obj mkvs) => do
          match ← stampOf mkvs with
          | some t => .ok (acc ++ [t])
          | none => .ok acc
      | _ => .ok acc
  | _ => .ok acc

/-- The fall-through part of `extract_time_range`: the `"messages"` and
`"time_series"` probes, with the `(0, 100)` default. -/
def extractTimeRangeTail (data : Json) : Except PyErr (Json × Json) := do
  let b1 ← pyContainsStr data "messages"
  if b1 then
    let msgsJ ← pyIndexStr data "messages"
    let msgs ← pyIter msgsJ
    let tsL ← msgs.foldlM (fun acc msg => do
        let hasTs ← pyContainsStr msg "timestamp"
        if hasTs then
          let v ← pyIndexStr msg "timestamp"
          .ok (acc ++ [v])
        else .ok acc) ([] : List Json)
    if !tsL.isEmpty then do
      let mn ← pyMinList tsL
      let mx ← pyMaxList tsL
      .ok (mn, mx)
    else .ok (.num 0, .num 100)
  else
    let b2 ← pyContainsStr data "time_series"
    if b2 then
      let serJ ← pyIndexStr data "time_series"
      let sers ← pyIter serJ
      let times ← sers.foldlM (fun acc series => do
          let hasT ← pyContainsStr series "times"
          if hasT then
            let tv ← pyIndexStr series "times"
            let tl ← pyIter tv
            .ok (acc ++ tl)
          else .ok acc) ([] : List Json)
      if !times.isEmpty then do
        let mn ← pyMinList times
        let mx ← pyMaxList times
        .ok (mn, mx)
      else .ok (.num 0, .num 100)
    else .ok (.num 0, .num 100)

/-- Guard of every ROSBridge list branch:
`isinstance(data, list) and len(data) > 0 and all(isinstance(item, dict)
for item in data)`. -/
def rosListOf (data : Json) : Option (List Json) :=
  match data with
  | .arr xs => if !xs.isEmpty && xs.all isObj then some xs else none
  | _ => none

def extractTimeRange (data : Json) : Except PyErr (Json × Json) := do
  match rosListOf data with
  | some xs => do
      let ts ← xs.foldlM timeRangeStep []
      if !ts.isEmpty then
        .ok (.num (decListMin ts), .num (decListMax ts))
      else
        extractTimeRangeTail data
  | none => extractTimeRangeTail data

/-! ### `extract_time_series` (`data_processor.py` lines 140-328) -/

/-- A time-series point: a Python dict in insertion order. -/
abbrev Point := List (String × Json)

/-- Dict assignment `entry[k] = v`: overwrite in place or append. -/
def setKey (p : Point) (k : String) (v : Json) : Point :=
  if p.any (·.1 == k) then p.map (fun kv => if kv.1 == k then (k, v) else kv) else p ++ [(k, v)]

/-- An element of a per-topic message group: `{"time": t, "msg": m}`. -/
structure TSEntry where
  time : Dec
  msg : Json

/-- Stable insertion placing `x` before the first element whose key is
not smaller; together with `sortByKey` this is extensionally the unique
stable sort, hence a faithful model of Python's stable `list.sort`. -/
def insertLe {α : Type} (key : α → Dec) (x : α) : List α → List α
  | [] => [x]
  | y :: ys => if (key x).le (key y) then x :: y :: ys else y :: insertLe key x ys

def sortByKey {α : Type} (key : α → Dec) : List α → List α
  | [] => []
  | x :: xs => insertLe key x (sortByKey key xs)

/-- Insertion-ordered topic groups: hash key, first-seen topic value,
entries. -/
abbrev TSGroups := List (HKey × Json × List TSEntry)

def groupsFind (gs : TSGroups) (k : HKey) : Option (Json × List TSEntry) :=
  (gs.find? (fun g => g.1.beq k)).map (·.2)

def groupsAppend (gs : TSGroups) (k : HKey) (topic : Json) (e : TSEntry) : TSGroups :=
  match gs with
  | [] => [(k, topic, [e])]
  | (k', t', es) :: rest =>
      if k'.beq k then (k', t', es ++ [e]) :: rest
      else (k', t', es) :: groupsAppend rest k topic e

/-- Append one publish message to its topic group, normalising the time
as header stamp if present and nonzero, else the position inside the
topic's group. -/
def stampOfMsg (mc : Json) : Except PyErr (Option Dec) :=
  match mc with
  | .obj mkvs => stampOf mkvs
  | _ => pure none

def tsGroupAdd (gs : TSGroups) (topic mc : Json) : Except PyErr TSGroups := do
  let k ← toHKey topic
  let cur := (groupsFind gs k).getD (topic, [])
  let tOpt ← stampOfMsg mc
  let t0 : Dec := tOpt.getD 0
  let t : Dec := if t0.beq 0 then Dec.ofNat cur.2.length else t0
  .ok (groupsAppend gs k topic ⟨t, mc⟩)

/-- First pass of the list branch: group publish messages by topic. -/
def tsGroupStep (gs : TSGroups) (m : Json) : Except PyErr TSGroups :=
  match publishParts m with
  | none => .ok gs
  | some (topic, mc) => tsGroupAdd gs topic mc

/-- The `float(target["event"])` stage of the special branch. -/
def spEvent (base : Point) (tkvs : List (String × Json)) : Except PyErr Point :=
  match jget? tkvs "event" with
  | some v => do
      let q ← pyFloat v
      pure (setKey base "event" (.num q))
  | none => pure base

/-- The `float(target["thread_id"])` stage of the special branch. -/
def spThread (p1 : Point) (tkvs : List (String × Json)) : Except PyErr Point :=
  match jget? tkvs "thread_id" with
  | some v => do
      let q ← pyFloat v
      pure (setKey p1 "thread_id" (.num q))
  | none => pure p1

/-- The boolean flag stages (`server_ready`, `error`) of the special
branch: `1 if target[key] else 0`. -/
def spFlag (key : String) (p : Point) (tkvs : List (String × Json)) : Point :=
  match jget? tkvs key with
  | some v => setKey p key (.num (if truthy v then 1 else 0))
  | none => p

/-- The special branch on an object message: only a dict-valued `target`
enriches the point. -/
def spObj (base : Point) (mkvs : List (String × Json)) : Except PyErr Point :=
  match jget? mkvs "target" with
  | some (.obj tkvs) => do
      let p1 ← spEvent base tkvs
      let p2 ← spThread p1 tkvs
      pure (spFlag "error" (spFlag "server_ready" p2 tkvs) tkvs)
  | _ => pure base

/-- One converted point of the `/capabilities/events` special branch. -/
def specialPoint (i : Nat) (e : TSEntry) : Except PyErr Point :=
  let base : Point := [("index", .num (Dec.ofNat i)), ("time", .num e.time)]
  match e.msg with
  | .obj mkvs => spObj base mkvs
  | _ => pure base

/-- Special-branch conversion: running index, keep only points with more
than the two bookkeeping fields. -/
def convertSpecialAux : Nat → List TSEntry → Except PyErr (List Point)
  | _, [] => .ok []
  | i, e :: es => do
      let p ← specialPoint i e
      let rest ← convertSpecialAux (i + 1) es
      if p.length > 2 then .ok (p :: rest) else .ok rest

/-- One step of the first-level numeric flattening (booleans count as
numeric in Python): `entry[key] = float(value)`. -/
def gpStep1 (acc : Point × Bool) (kv : String × Json) : Point × Bool :=
  match numVal kv.2 with
  | some q => (setKey acc.1 kv.1 (.num q), true)
  | none => acc

/-- One step of the `target_`/`source_` flattening: the guard checks
the unprefixed key against the current entry, the assignment uses the
tagged key. -/
def gpStepTagged (tag : String) (acc : Point × Bool) (kv : String × Json) : Point × Bool :=
  match numVal kv.2 with
  | some q =>
      if acc.1.any (·.1 == kv.1) then acc
      else (setKey acc.1 (tag ++ kv.1) (.num q), true)
  | none => acc

/-- The `isinstance(msg.get("target"), dict)` flattening stage. -/
def gpTarget (mkvs : List (String × Json)) (s : Point × Bool) : Point × Bool :=
  match jget? mkvs "target" with
  | some (.obj tkvs) => tkvs.foldl (gpStepTagged "target_") s
  | _ => s

/-- The `isinstance(msg.get("source"), dict)` flattening stage. -/
def gpSource (mkvs : List (String × Json)) (s : Point × Bool) : Point × Bool :=
  match jget? mkvs "source" with
  | some (.obj skvs) => skvs.foldl (gpStepTagged "source_") s
  | _ => s

/-- One converted point of the generic branch: first-level numeric
fields, then `target_`/`source_` prefixed numeric fields, then the
`value` placeholder when nothing numeric was found. -/
def genericPoint (i : Nat) (e : TSEntry) : Point :=
  let base : Point := [("index", .num (Dec.ofNat i)), ("time", .num e.time)]
  match e.msg with
  | .obj mkvs =>
      let s3 := gpSource mkvs (gpTarget mkvs (mkvs.foldl gpStep1 (base, false)))
      if s3.2 then s3.1 else setKey s3.1 "value" (.num 1)
  | _ => setKey base "value" (.num 1)

def convertGenericAux : Nat → List TSEntry → List Point
  | _, [] => []
  | i, e :: es => genericPoint i e :: convertGenericAux (i + 1) es

/-- Convert one topic group: sort by time, then dispatch on the
capabilities-events topic. -/
def convertGroup (topic : Json) (msgs : List TSEntry) : Except PyErr (Option (List Point)) := do
  if msgs.isEmpty then .ok none
  else
    let sorted := sortByKey TSEntry.time msgs
    if pyEq topic (.str "/capabilities/events") then
      let pts ← convertSpecialAux 0 sorted
      if pts.isEmpty then .ok none else .ok (some pts)
    else
      let pts := convertGenericAux 0 sorted
      if pts.isEmpty then .ok none else .ok (some pts)

/-- The extracted time series: insertion-ordered mapping from topic
(hash key plus first-seen topic value) to points. -/
abbrev TimeSeries := List (HKey × Json × List Point)

def extractTimeSeriesList (xs : List Json) : Except PyErr TimeSeries := do
  let gs ← xs.foldlM tsGroupStep []
  gs.foldlM (fun acc g => do
      match ← convertGroup g.2.1 g.2.2 with
      | some pts => .ok (acc ++ [(g.1, g.2.1, pts)])
      | none => .ok acc) []

/-- Entry of the generic dict branch: `{"data": d}` with optional
`"time"`. -/
structure DEntry where
  data : Json
  time : Option Json

abbrev DGroups := List (HKey × Json × List DEntry)

def dGroupsAppend (gs : DGroups) (k : HKey) (topic : Json) (e : DEntry) : DGroups :=
  match gs with
  | [] => [(k, topic, [e])]
  | (k', t', es) :: rest =>
      if k'.beq k then (k', t', es ++ [e]) :: rest
      else (k', t', es) :: dGroupsAppend rest k topic e

def dictGroupStep (gs : DGroups) (msg : Json) : Except PyErr DGroups := do
  let b1 ← pyContainsStr msg "topic"
  if b1 then
    let b2 ← pyContainsStr msg "data"
    if b2 then
      let topic ← pyIndexStr msg "topic"
      let k ← toHKey topic
      let dv ← pyIndexStr msg "data"
      let bt ← pyContainsStr msg "timestamp"
      let tOpt ← if bt then do
          let tv ← pyIndexStr msg "timestamp"
          pure (some tv)
        else pure (none : Option Json)
      .ok (dGroupsAppend gs k topic ⟨dv, tOpt⟩)
    else .ok gs
  else .ok gs

/-- Dict-branch conversion of one entry; no sorting happens in this
branch.  Note `isinstance(x, (int, float))` also accepts booleans. -/
def dictConvEntry (e : DEntry) : Option Point :=
  match e.data with
  | .obj dkvs =>
      let base : Point := [("time", e.time.getD (.num 0))]
      some (dkvs.foldl (fun p kv =>
          match kv.2 with
          | .num _ => setKey p kv.1 kv.2
          | .bool _ => setKey p kv.1 kv.2
          | _ => p) base)
  | .num _ => some [("time", e.time.getD (.num 0)), ("value", e.data)]
  | .bool _ => some [("time", e.time.getD (.num 0)), ("value", e.data)]
  | _ => none

def extractTimeSeriesDict (data : Json) : Except PyErr TimeSeries := do
  let msgsJ ← pyIndexStr data "messages"
  let msgs ← pyIter msgsJ
  let gs ← msgs.foldlM dictGroupStep []
  gs.foldlM (fun acc g => do
      if g.2.2.isEmpty then .ok acc
      else
        let pts := g.2.2.filterMap dictConvEntry
        if pts.isEmpty then .ok acc else .ok (acc ++ [(g.1, g.2.1, pts)])) []

/-- Dict assignment `time_series[topic] = pts` in the direct
`time_series` branch. -/
def tsAssign (ts : TimeSeries) (k : HKey) (topic : Json) (pts : List Point) : TimeSeries :=
  match ts with
  | [] => [(k, topic, pts)]
  | (k', t', p') :: rest =>
      if k'.beq k then (k', t', pts) :: rest
      else (k', t', p') :: tsAssign rest k topic pts

def seriesStep (acc : TimeSeries) (series : Json) : Except PyErr TimeSeries := do
  let b1 ← pyContainsStr series "name"
  if b1 then
    let b2 ← pyContainsStr series "values"
    if b2 then
      let topic ← pyIndexStr series "name"
      let values ← pyIndexStr series "values"
      let k ← toHKey topic
      let bt ← pyContainsStr series "times"
      let useTimes ← if bt then do
          let tv ← pyIndexStr series "times"
          let lt ← pyLen tv
          let lv ← pyLen values
          pure (if lt == lv then some tv else (none : Option Json))
        else pure (none : Option Json)
      match useTimes with
      | some tv => do
          let ts ← pyIter tv
          let vs ← pyIter values
          .ok (tsAssign acc k topic ((ts.zip vs).map (fun p => [("time", p.1), ("value", p.2)])))
      | none => do
          let vs ← pyIter values
          .ok (tsAssign acc k topic
            (vs.enum.map (fun p => [("time", .num (Dec.ofNat p.1)), ("value", p.2)])))
    else .ok acc
  else .ok acc

def extractTimeSeries (data : Json) : Except PyErr TimeSeries := do
  match rosListOf data with
  | some xs => extractTimeSeriesList xs
  | none =>
      let b1 ← pyContainsStr data "messages"
      if b1 then extractTimeSeriesDict data
      else
        let b2 ← pyContainsStr data "time_series"
        if b2 then do
          let serJ ← pyIndexStr data "time_series"
          let sers ← pyIter serJ
          sers.foldlM seriesStep []
        else .ok []

/-! ### `extract_node_paths` (`data_processor.py` lines 330-532) -/

/-- A message recorded on a `CapabilityGetRunner`-related capability. -/
structure CapMsg where
  text : Json
  timestamp : Dec
  event : Int

/-- One capability-registry entry.  The Python code keeps three parallel
dicts keyed by the capability name — `capability_ids` (the `id` field),
`capability_name_to_id` (the `nodeId` field) and
`node_paths["capabilities"]` (the whole record); they are always updated
together, so a single association list carries all three. -/
structure CapEntry where
  id : Nat
  name : Json
  nodeId : String
  messages : List CapMsg

abbrev CapReg := List (HKey × CapEntry)

def regFind (reg : CapReg) (k : HKey) : Option CapEntry :=
  (reg.find? (fun e => e.1.beq k)).map (·.2)

/-- Pass-1 discovery of one truthy capability value: assign the next id
on first sight.  Using an unhashable value as a dict key raises. -/
def discoverCap (st : CapReg × Nat) (capv : Json) : Except PyErr (CapReg × Nat) := do
  let k ← toHKey capv
  if (regFind st.1 k).isSome then .ok st
  else .ok (st.1 ++ [(k, ⟨st.2, capv, "capability_" ++ toString st.2, []⟩)], st.2 + 1)

/-- The guard chain `if "source" in mc and isinstance(mc["source"],
dict): if "capability" in source and source["capability"]:` as the list
of truthy capability values it lets through (one or none). -/
def capOfPart (mkvs : List (String × Json)) (key : String) : List Json :=
  match jget? mkvs key with
  | some (.obj kvs) =>
      match jget? kvs "capability" with
      | some capv => if truthy capv then [capv] else []
      | none => []
  | _ => []

/-- Pass 1 over one message: register the `source.capability` value
first, then the `target.capability` value. -/
def pass1Msg (st : CapReg × Nat) (m : Json) : Except PyErr (CapReg × Nat) :=
  match publishParts m with
  | none => .ok st
  | some (_, mc) =>
      match mc with
      | .obj mkvs => do
          let st₁ ← (capOfPart mkvs "source").foldlM discoverCap st
          (capOfPart mkvs "target").foldlM discoverCap st₁
      | _ => .ok st

/-- Graph node record.  `text` is `none` on source nodes (the Python
dict has no `"text"` key there) and present on target nodes. -/
structure PNode where
  id : String
  name : Json
  type : String
  isCap : Bool
  text : Option Json

structure Connection where
  id : String
  source : String
  target : String
  topic : Json
  timestamp : Dec
  event : Int
  text : Json

structure NodePaths where
  nodes : List PNode
  connections : List Connection
  capabilities : CapReg
  capabilityCount : Nat

/-- `topic.split('/')[-1] if '/' in topic else "Unknown"`: membership
`TypeError` on non-containers, `AttributeError` (folded into
`typeError`) when a list/dict contains `'/'` and `.split` is then
requested. -/
def fallbackName (topic : Json) : Except PyErr String :=
  match topic with
  | .str s =>
      if strContains s "/" then .ok (lastComponent s)
      else .ok "Unknown"
  | .arr xs =>
      if xs.any (fun x => pyEq x (.str "/")) then .error .typeError
      else .ok "Unknown"
  | .obj kvs =>
      if kvs.any (·.1 == "/") then .error .typeError
      else .ok "Unknown"
  | _ => .error .typeError

/-- `f"{target_text[:30]}{'...' if len(target_text) > 30 else ''}"`; on
a list, slicing yields a list that the f-string renders via `str`;
non-sliceable values raise. -/
def truncName (t : Json) : Except PyErr String :=
  match t with
  | .str s => .ok (String.mk (s.data.take 30) ++ if s.length > 30 then "..." else "")
  | .arr xs => .ok (pyRepr (.arr (xs.take 30)) ++ if xs.length > 30 then "..." else "")
  | _ => .error .typeError

/-- Append a tracked message to a registered capability; no-op when the
key is absent. -/
def regAppendMsg (reg : CapReg) (k : HKey) (msg : CapMsg) : CapReg :=
  reg.map (fun e =>
    if e.1.beq k then (e.1, { e.2 with messages := e.2.messages ++ [msg] }) else e)

/-- Pass-2 mutable state. -/
structure P2State where
  reg : CapReg
  nodes : List PNode
  added : List String
  conns : List Connection

/-- The `std_capabilities/CapabilityGetRunner` sentinel string. -/
def getRunnerStr : String := "std_capabilities/CapabilityGetRunner"

/-- Capability lookup shared by source and target resolution: on a
truthy capability value, `(node id if registered, name, capability)`. -/
def capLookup (reg : CapReg) (kvs : List (String × Json)) :
    Except PyErr (Option String × Json × Json) :=
  match jget? kvs "capability" with
  | some capv =>
      if truthy capv then do
        let k ← toHKey capv
        match regFind reg k with
        | some entry => pure (some entry.nodeId, capv, capv)
        | none => pure ((none : Option String), Json.str "", capv)
      else pure ((none : Option String), Json.str "", Json.str "")
  | none => pure ((none : Option String), Json.str "", Json.str "")

/-- Source resolution (lines 433-447): the capability's node id, else a
synthetic `source_<idx>` with the topic-derived name.  Result:
`(source_id, source_name, source_capability)`. -/
def sourceResolve (reg : CapReg) (topic : Json) (mkvs : List (String × Json)) (idx : Nat) :
    Except PyErr (Option String × Json × Json) :=
  match jget? mkvs "source" with
  | some (.obj skvs) => do
      let found ← capLookup reg skvs
      match found.1 with
      | some _ => pure found
      | none => do
          let nm ← fallbackName topic
          pure (some ("source_" ++ toString idx), Json.str nm, found.2.2)
  | _ => pure ((none : Option String), Json.str "", Json.str "")

/-- `event_type`: `int(target["event"])` with every conversion failure
defaulted to 0 — this conversion itself never raises. -/
def eventTypeOf (tkvs : List (String × Json)) : Int :=
  match jget? tkvs "event" with
  | some v => (pyTryInt v).getD 0
  | none => 0

/-- The fallback id/name derivation of an unresolved target (lines
461-472): a `message_<idx>` node when truthy text is present, else a
generic `target_<idx>` node. -/
def targetFallback (found : Option String × Json × Json) (ttext : Json) (idx : Nat) :
    Except PyErr (Option String × Json) :=
  match found.1 with
  | some i => pure (some i, found.2.1)
  | none =>
      if truthy ttext then do
        let nm ← truncName ttext
        pure (some ("message_" ++ toString idx), Json.str nm)
      else
        pure (some ("target_" ++ toString idx), Json.str ("Target " ++ toString idx))

/-- Target resolution (lines 449-480).  Result: `(target_id,
target_name, target_text, event_type, target_capability)`. -/
def targetResolve (reg : CapReg) (mkvs : List (String × Json)) (idx : Nat) :
    Except PyErr (Option String × Json × Json × Int × Json) :=
  match jget? mkvs "target" with
  | some (.obj tkvs) => do
      let found ← capLookup reg tkvs
      let resolved ← targetFallback found ((jget? tkvs "text").getD (Json.str "")) idx
      pure (resolved.1, resolved.2, (jget? tkvs "text").getD (Json.str ""),
            eventTypeOf tkvs, found.2.2)
  | _ => pure ((none : Option String), Json.str "", Json.str "", (0 : Int), Json.str "")

/-- `CapabilityGetRunner` message tracking (lines 482-490). -/
def trackGetRunner (reg : CapReg) (srcCap tgtCap tgtText : Json) (timestamp : Dec)
    (ev : Int) : Except PyErr CapReg :=
  if pyEq srcCap (.str getRunnerStr) || pyEq tgtCap (.str getRunnerStr) then do
    let capKey := if truthy srcCap then srcCap else tgtCap
    let k ← toHKey capKey
    if (regFind reg k).isSome then .ok (regAppendMsg reg k ⟨tgtText, timestamp, ev⟩)
    else .ok reg
  else .ok reg

/-- Node registration and connection creation (lines 492-526), executed
when both endpoints resolved. -/
def addConn (st : P2State) (reg' : CapReg) (idx : Nat) (topic : Json) (timestamp : Dec)
    (src : Option String × Json × Json) (tgt : Option String × Json × Json × Int × Json) :
    P2State :=
  match src.1, tgt.1 with
  | some sid, some tid =>
      let step1 : List PNode × List String :=
        if st.added.contains sid then (st.nodes, st.added)
        else
          (st.nodes ++ [⟨sid, src.2.1,
              if strStartsWith sid "capability_" then "capability" else "source",
              strStartsWith sid "capability_", none⟩],
           st.added ++ [sid])
      let step2 : List PNode × List String :=
        if step1.2.contains tid then step1
        else
          (step1.1 ++ [⟨tid, tgt.2.1,
              if strStartsWith tid "capability_" then "capability" else "target",
              strStartsWith tid "capability_",
              some (if strStartsWith tid "message_" then tgt.2.2.1 else .str "")⟩],
           step1.2 ++ [tid])
      ⟨reg', step2.1, step2.2,
       st.conns ++ [⟨"conn_" ++ toString idx, sid, tid, topic,
                     timestamp, tgt.2.2.2.1, tgt.2.2.1⟩]⟩
  | _, _ => ⟨reg', st.nodes, st.added, st.conns⟩

/-- Pass 2 over one message: resolve source/target ids, record
`CapabilityGetRunner` traffic, register nodes once and append the
connection when both endpoints resolved. -/
def pass2Go (st : P2State) (idx : Nat) (m : Json) : Except PyErr P2State := do
  match publishParts m with
  | none => .ok st
  | some (topic, mc) =>
      match mc with
      | .obj mkvs => do
          let tOpt ← stampOf mkvs
          let timestamp := tOpt.getD 0
          let srcRes ← sourceResolve st.reg topic mkvs idx
          let tgtRes ← targetResolve st.reg mkvs idx
          let reg' ← trackGetRunner st.reg srcRes.2.2 tgtRes.2.2.2.2 tgtRes.2.2.1
                       timestamp tgtRes.2.2.2.1
          .ok (addConn st reg' idx topic timestamp srcRes tgtRes)
      | _ => .ok st

/-- The enumerated form folded over `enumerate(data)`. -/
def pass2Step (st : P2State) (im : Nat × Json) : Except PyErr P2State :=
  pass2Go st im.1 im.2

def emptyNodePaths : NodePaths := ⟨[], [], [], 0⟩

/-- `extract_node_paths` before the final sort. -/
def extractNodePathsCore (data : Json) : Except PyErr NodePaths := do
  match rosListOf data with
  | some xs => do
      let p1 ← xs.foldlM pass1Msg ([], 1)
      let st ← xs.enum.foldlM pass2Step ⟨p1.1, [], [], []⟩
      .ok ⟨st.nodes, st.conns, st.reg, p1.1.length⟩
  | none => .ok emptyNodePaths

/-- `extract_node_paths`: the core two passes followed by the stable
sort of the connection list by timestamp. -/
def extractNodePaths (data : Json) : Except PyErr NodePaths := do
  let np ← extractNodePathsCore data
  if np.connections.isEmpty then .ok np
  else .ok { np with connections := sortByKey Connection.timestamp np.connections }

/-! ### `extract_robot_state` (`data_processor.py` lines 534-642) -/

/-- Generic dict assignment into a string-keyed association list. -/
def setAssoc {β : Type} (p : List (String × β)) (k : String) (v : β) : List (String × β) :=
  if p.any (·.1 == k) then p.map (fun kv => if kv.1 == k then (k, v) else kv) else p ++ [(k, v)]

def rsListStep (acc : List (String × Point)) (m : Json) : Except PyErr (List (String × Point)) :=
  match publishParts m with
  | none => .ok acc
  | some (_, mc) =>
      match mc with
      | .obj mkvs => do
          let tOpt ← stampOf mkvs
          let timestamp := tOpt.getD 0
          if timestamp.beq 0 then .ok acc
          else
            let info1 : Point :=
              match jget? mkvs "pose" with
              | some (.obj pkvs) =>
                  let a := match jget? pkvs "position" with
                           | some v => setKey [] "position" v
                           | none => []
                  match jget? pkvs "orientation" with
                  | some v => setKey a "orientation" v
                  | none => a
              | _ => []
            let info2 : Point :=
              match jget? mkvs "target" with
              | some (.obj tk) =>
                  let a := match jget? tk "text" with
                           | some v => setKey info1 "status" v
                           | none => info1
                  match jget? tk "event" with
                  | some v => setKey a "event" v
                  | none => a
              | _ => info1
            let info3 : Point :=
              match jget? mkvs "source" with
              | some (.obj sk) =>
                  match jget? sk "capability" with
                  | some v => setKey info2 "capability" v
                  | none => info2
              | _ => info2
            if info3.isEmpty then .ok acc
            else .ok (setAssoc acc (decRepr timestamp) info3)
      | _ => .ok acc

/-- Dict-branch message: note that the `.get` default chains
`d.get("pose", {}).get(...)` are evaluated eagerly, so a non-dict
`pose` value raises even when a direct `position` key is present. -/
def rsDictMsgStep (acc : List (String × Point)) (msg : Json) : Except PyErr (List (String × Point)) := do
  let b1 ← pyContainsStr msg "timestamp"
  if b1 then
    let b2 ← pyContainsStr msg "data"
    if b2 then
      let ts ← pyIndexStr msg "timestamp"
      let dv ← pyIndexStr msg "data"
      match dv with
      | .obj dkvs => do
          let info1 ←
            if (jget? dkvs "position").isSome || (jget? dkvs "pose").isSome then do
              let inner := (jget? dkvs "pose").getD (.obj [])
              let innerPos ← pyGetD inner "position" (.obj [])
              let posData := (jget? dkvs "position").getD innerPos
              pure (if truthy posData then setKey [] "position" posData else ([] : Point))
            else pure ([] : Point)
          let info2 ←
            if (jget? dkvs "orientation").isSome || (jget? dkvs "pose").isSome then do
              let inner := (jget? dkvs "pose").getD (.obj [])
              let innerOri ← pyGetD inner "orientation" (.obj [])
              let oriData := (jget? dkvs "orientation").getD innerOri
              pure (if truthy oriData then setKey info1 "orientation" oriData else info1)
            else pure info1
          let info3 : Point :=
            match jget? dkvs "joint_states" with
            | some jd => if truthy jd then setKey info2 "joints" jd else info2
            | none => info2
          if info3.isEmpty then .ok acc else .ok (setAssoc acc (pyStrTop ts) info3)
      | _ => .ok acc
    else .ok acc
  else .ok acc

def rsPosesStep (acc : List (String × Point)) (kv : String × Json) : Except PyErr (List (String × Point)) := do
  let pos ← pyGetD kv.2 "position" (.obj [])
  let ori ← pyGetD kv.2 "orientation" (.obj [])
  .ok (setAssoc acc kv.1 [("position", pos), ("orientation", ori)])

def extractRobotState (data : Json) : Except PyErr (List (String × Point)) := do
  let fromList ←
    match rosListOf data with
    | some xs => xs.foldlM rsListStep []
    | none => pure []
  if !fromList.isEmpty then .ok fromList
  else
    match data with
    | .obj dkvs => do
        let st1 ←
          match jget? dkvs "messages" with
          | some msgsJ => do
              let msgs ← pyIter msgsJ
              msgs.foldlM rsDictMsgStep []
          | none => pure ([] : List (String × Point))
        if st1.isEmpty then
          match jget? dkvs "poses" with
          | some posesJ =>
              match posesJ with
              | .obj pkvs => pkvs.foldlM rsPosesStep []
              | _ => .error .typeError
          | none => .ok st1
        else .ok st1
    | _ => .ok []

/-! ### `extract_topic_metadata` (`data_processor.py` lines 646-705) -/

/-- Topic metadata: hash key, first-seen topic value, type,
description. -/
abbrev TopicMeta := List (HKey × Json × Json × Json)

def tmFind (tm : TopicMeta) (k : HKey) : Bool := tm.any (fun e => e.1.beq k)

def tmAssign (tm : TopicMeta) (k : HKey) (topic ty desc : Json) : TopicMeta :=
  match tm with
  | [] => [(k, topic, ty, desc)]
  | (k', t', v') :: rest =>
      if k'.beq k then (k', t', ty, desc) :: rest
      else (k', t', v') :: tmAssign rest k topic ty desc

def tmListStep (tm : TopicMeta) (m : Json) : Except PyErr TopicMeta :=
  match m with
  | .obj kvs =>
      match jget? kvs "topic", jget? kvs "op" with
      | some topic, some _ => do
          let k ← toHKey topic
          if tmFind tm k then .ok tm
          else
            let ty : String :=
              match jget? kvs "msg" with
              | some (.obj mkvs) =>
                  let t0 := if (jget? mkvs "header").isSome then "std_msgs/Header" else "unknown"
                  if (jget? mkvs "pose").isSome then "geometry_msgs/Pose"
                  else if (jget? mkvs "source").isSome && (jget? mkvs "target").isSome then
                    "capabilities_msgs/Event"
                  else t0
              | _ => "unknown"
            .ok (tm ++ [(k, topic, .str ty, .str "Inferred from ROS Bridge messages")])
      | _, _ => .ok tm
  | _ => .ok tm

def tmTopicsStep (tm : TopicMeta) (ti : Json) : Except PyErr TopicMeta := do
  let b ← pyContainsStr ti "name"
  if b then do
    let name ← pyIndexStr ti "name"
    let k ← toHKey name
    let ty ← pyGetD ti "type" (.str "unknown")
    let desc ← pyGetD ti "description" (.str "")
    .ok (tmAssign tm k name ty desc)
  else .ok tm

def tmMsgsStep (tm : TopicMeta) (msg : Json) : Except PyErr TopicMeta := do
  let b ← pyContainsStr msg "topic"
  if b then do
    let topic ← pyIndexStr msg "topic"
    let k ← toHKey topic
    if tmFind tm k then .ok tm
    else .ok (tm ++ [(k, topic, .str "inferred", .str "")])
  else .ok tm

def extractTopicMetadata (data : Json) : Except PyErr TopicMeta := do
  let fromList ←
    match rosListOf data with
    | some xs => xs.foldlM tmListStep []
    | none => pure []
  if !fromList.isEmpty then .ok fromList
  else
    match data with
    | .obj dkvs =>
        match jget? dkvs "topics" with
        | some topicsJ => do
            let tis ← pyIter topicsJ
            tis.foldlM tmTopicsStep []
        | none =>
            match jget? dkvs "messages" with
            | some msgsJ => do
                let msgs ← pyIter msgsJ
                msgs.foldlM tmMsgsStep []
            | none => .ok []
    | _ => .ok []

/-! ### `process_robot_data` (`data_processor.py` lines 45-81) and the
upload guard (`app.py` lines 44-69) -/

structure Processed where
  messages : List Json
  timeRange : Json × Json
  timeSeries : TimeSeries
  robotState : List (String × Point)
  nodePaths : NodePaths
  topicMetadata : TopicMeta

def processRobotData (data : Json) : Except PyErr Processed := do
  let msgs := match data with
              | .arr xs => xs
              | _ => []
  let tr ← extractTimeRange data
  let ts ← extractTimeSeries data
  let rs ← extractRobotState data
  let np ← extractNodePaths data
  let tm ← extractTopicMetadata data
  .ok ⟨msgs, tr, ts, rs, np, tm⟩

/-- The upload handler: `process_robot_data` runs only when
`validate_json_data` returned `True`; its exceptions are caught by the
surrounding `try` and leave no processed data. -/
def uploadPipeline (data : Json) : Option Processed :=
  if validateJsonData data then
    match processRobotData data with
    | .ok r => some r
    | .error _ => none
  else none

/-! ### Graph engine (`node_visualization.py` lines 21-63,
`visualization_utils.py` lines 363-372)

Both call sites delegate shortest-path queries to
`networkx.shortest_path` on a `networkx.DiGraph`.  The engine is
embedded as an explicit node/edge-list graph with a breadth-first
search; `networkx` raises the typed `NodeNotFound` when either endpoint
is absent and the typed `NetworkXNoPath` when no directed path exists,
and returns `[source]` when source equals target. -/

structure NxGraph where
  nodes : List HKey
  edges : List (HKey × HKey)

inductive NxErr where
  | nodeNotFound
  | noPath
deriving DecidableEq

def addNode (G : NxGraph) (n : HKey) : NxGraph :=
  if G.nodes.any (·.beq n) then G else { G with nodes := G.nodes ++ [n] }

def addEdge (G : NxGraph) (u v : HKey) : NxGraph :=
  let G' := addNode (addNode G u) v
  if G'.edges.any (fun e => e.1.beq u && e.2.beq v) then G'
  else { G' with edges := G'.edges ++ [(u, v)] }

/-- The event graph of `create_node_path_visualization`
(`node_visualization.py` lines 24-32): one node per truthy
`source`/`target` capability and one directed edge per event. -/
def buildEventGraph (data : Json) : Except PyErr NxGraph := do
  let events ← pyGetD data "events" (.arr [])
  let entries ← pyIter events
  entries.foldlM (fun G entry => do
      let s1 ← pyGetD entry "source" (.obj [])
      let source ← pyGetD s1 "capability" .null
      let t1 ← pyGetD entry "target" (.obj [])
      let target ← pyGetD t1 "capability" .null
      let _label ← pyGetD entry "text" (.str "")
      if truthy source && truthy target then do
        let sk ← toHKey source
        let tk ← toHKey target
        .ok (addEdge (addNode (addNode G sk) tk) sk tk)
      else .ok G) (⟨[], []⟩ : NxGraph)

def neighbors (G : NxGraph) (n : HKey) : List HKey :=
  (G.edges.filter (fun e => e.1.beq n)).map (·.2)

/-- Breadth-first search keeping, for each frontier element, the
reversed path from the start node.  A node is marked visited when
enqueued, so each distinct node is enqueued at most once and the fuel
`|nodes| + |edges| + 1` used below never exhausts before the queue. -/
def bfsAux (G : NxGraph) (target : HKey) :
    Nat → List HKey → List (HKey × List HKey) → Option (List HKey)
  | 0, _, _ => none
  | _ + 1, _, [] => none
  | fuel + 1, visited, (n, path) :: rest =>
      if n.beq target then some path.reverse
      else
        let nbrs := (neighbors G n).filter (fun m => !visited.any (·.beq m))
        bfsAux G target fuel (visited ++ nbrs) (rest ++ nbrs.map (fun m => (m, m :: path)))

/-- `networkx.shortest_path` on an unweighted directed graph. -/
def nxShortestPath (G : NxGraph) (s t : HKey) : Except NxErr (List HKey) :=
  if !G.nodes.any (·.beq s) then .error .nodeNotFound
  else if !G.nodes.any (·.beq t) then .error .nodeNotFound
  else
    match bfsAux G t (G.nodes.length + G.edges.length + 1) [s] [(s, [s])] with
    | some p => .ok p
    | none => .error .noPath

/-- Directed reachability along graph edges, up to Python value
equality of node keys. -/
inductive Reaches (G : NxGraph) : HKey → HKey → Prop where
  | refl {a b : HKey} : a.beq b = true → Reaches G a b
  | snoc {a b c : HKey} : Reaches G a b →
      G.edges.any (fun e => e.1.beq b && e.2.beq c) = true → Reaches G a c

/-! ### Claim-side characterizations -/

/-- Capability occurrence order of one publish message: the
`source.capability` value before the `target.capability` value, truthy
values only. -/
def capOccurrences (m : Json) : List Json :=
  match publishParts m with
  | none => []
  | some (_, mc) =>
      match mc with
      | .obj mkvs => capOfPart mkvs "source" ++ capOfPart mkvs "target"
      | _ => []

/-- Document-order capability discovery sequence. -/
def discoverySeq (xs : List Json) : List Json := (xs.map capOccurrences).flatten

def dedupFirstAux (seen : List HKey) : List HKey → List HKey
  | [] => []
  | k :: ks =>
      if seen.any (·.beq k) then dedupFirstAux seen ks
      else k :: dedupFirstAux (seen ++ [k]) ks

/-- First occurrences of each key, in order of first appearance. -/
def dedupFirst (ks : List HKey) : List HKey := dedupFirstAux [] ks

/-- Hash keys of a capability-value sequence (errors on an unhashable
value, as the registry dicts would). -/
def keysSeq : List Json → Except PyErr (List HKey)
  | [] => .ok []
  | o :: os => do
      let k ← toHKey o
      let ks ← keysSeq os
      .ok (k :: ks)

/-- Adjacent connections carry non-decreasing timestamps. -/
def connsNonDec (cs : List Connection) : Prop :=
  List.Chain' (fun a b => a.timestamp.le b.timestamp = true) cs

/-- Both points carry a numeric `time` field and the first is not
later. -/
def timeLeB (p q : Point) : Bool :=
  match jget? p "time", jget? q "time" with
  | some (.num a), some (.num b) => a.le b
  | _, _ => false

def ptsTimesNonDec (pts : List Point) : Prop :=
  List.Chain' (fun p q => timeLeB p q = true) pts

/-- A publish message whose body carries a first-level numeric (or
boolean) field literally named `time` — the only shape whose generic
flattening overwrites the normalized timestamp of a point. -/
def bodyHasNumericTime (m : Json) : Bool :=
  match publishParts m with
  | some (_, .obj mkvs) => mkvs.any (fun kv => kv.1 == "time" && (numVal kv.2).isSome)
  | _ => false

/-- A grouped entry whose message body has no first-level numeric field
named `time`. -/
def entSafe (e : TSEntry) : Prop :=
  ∀ mkvs, e.msg = Json.obj mkvs → ∀ kv ∈ mkvs, kv.1 = "time" → numVal kv.2 = none

/-! ## Theorems

### Order facts for `Dec` and `HKey` -/

theorem Dec.le_iff_toRat (a b : Dec) : a.le b = true ↔ a.toRat ≤ b.toRat := by
  unfold Dec.le Dec.toRat
  rw [div_le_div_iff₀ (by positivity) (by positivity), decide_eq_true_eq]
  constructor
  · intro h
    exact_mod_cast h
  · intro h
    exact_mod_cast h

theorem Dec.lt_iff_toRat (a b : Dec) : a.lt b = true ↔ a.toRat < b.toRat := by
  unfold Dec.lt Dec.toRat
  rw [div_lt_div_iff₀ (by positivity) (by positivity), decide_eq_true_eq]
  constructor
  · intro h
    exact_mod_cast h
  · intro h
    exact_mod_cast h

theorem Dec.beq_iff_toRat (a b : Dec) : a.beq b = true ↔ a.toRat = b.toRat := by
  unfold Dec.beq Dec.toRat
  rw [div_eq_div_iff (by positivity) (by positivity), beq_iff_eq]
  constructor
  · intro h
    exact_mod_cast h
  · intro h
    exact_mod_cast h

theorem Dec.leTotal (a b : Dec) : a.le b = true ∨ b.le a = true := by
  rw [Dec.le_iff_toRat, Dec.le_iff_toRat]
  exact le_total a.toRat b.toRat

theorem Dec.leTrans {a b c : Dec} (h₁ : a.le b = true) (h₂ : b.le c = true) :
    a.le c = true := by
  rw [Dec.le_iff_toRat] at *
  exact h₁.trans h₂

theorem Dec.beqRefl (a : Dec) : a.beq a = true := by
  unfold Dec.beq
  simp

theorem Dec.beqTrans {a b c : Dec} (h₁ : a.beq b = true) (h₂ : b.beq c = true) :
    a.beq c = true := by
  rw [Dec.beq_iff_toRat] at *
  exact h₁.trans h₂

theorem HKey.beqSelf (k : HKey) : k.beq k = true := by
  cases k <;> simp [HKey.beq, Dec.beqRefl]

theorem HKey.beqChain {a b c : HKey} (h₁ : a.beq b = true) (h₂ : b.beq c = true) :
    a.beq c = true := by
  cases a <;> cases b <;> cases c <;> simp_all [HKey.beq]
  · exact Dec.beqTrans h₁ h₂

/-! ### `Except` bind inversion -/

theorem exceptBindOk {ε α β : Type} {x : Except ε α} {f : α → Except ε β} {b : β}
    (h : x >>= f = .ok b) : ∃ a, x = .ok a ∧ f a = .ok b := by
  cases x with
  | ok a => exact ⟨a, rfl, h⟩
  | error e => simp [Bind.bind, Except.bind] at h

/-! ### The stable sort -/

theorem mem_insertLe {α : Type} (key : α → Dec) (x : α) (l : List α) (a : α) :
    a ∈ insertLe key x l ↔ a = x ∨ a ∈ l := by
  induction l with
  | nil => simp [insertLe]
  | cons y ys ih =>
      by_cases h : (key x).le (key y) = true <;>
        simp [insertLe, h, ih] <;> tauto

theorem pairwise_insertLe {α : Type} (key : α → Dec) (x : α) (l : List α)
    (hl : l.Pairwise (fun a b => (key a).le (key b) = true)) :
    (insertLe key x l).Pairwise (fun a b => (key a).le (key b) = true) := by
  induction l with
  | nil => simp [insertLe]
  | cons y ys ih =>
      rcases List.pairwise_cons.mp hl with ⟨hy, hys⟩
      by_cases h : (key x).le (key y) = true
      · rw [insertLe, if_pos h]
        refine List.pairwise_cons.mpr ⟨?_, hl⟩
        intro b hb
        rcases List.mem_cons.mp hb with rfl | hb'
        · exact h
        · exact Dec.leTrans h (hy b hb')
      · rw [insertLe, if_neg h]
        refine List.pairwise_cons.mpr ⟨?_, ih hys⟩
        intro b hb
        rcases (mem_insertLe key x ys b).mp hb with rfl | hb'
        · exact (Dec.leTotal (key b) (key y)).resolve_left h
        · exact hy b hb'

theorem pairwise_sortByKey {α : Type} (key : α → Dec) (l : List α) :
    (sortByKey key l).Pairwise (fun a b => (key a).le (key b) = true) := by
  induction l with
  | nil => simp [sortByKey]
  | cons x xs ih => exact pairwise_insertLe key x _ ih

theorem mem_sortByKey {α : Type} (key : α → Dec) (l : List α) (a : α) :
    a ∈ sortByKey key l ↔ a ∈ l := by
  induction l with
  | nil => simp [sortByKey]
  | cons x xs ih => simp [sortByKey, mem_insertLe, ih]

theorem filter_insertLe {α : Type} (key : α → Dec) (q : Dec) (x : α) (l : List α) :
    (insertLe key x l).filter (fun a => (key a).beq q) =
      if (key x).beq q then x :: l.filter (fun a => (key a).beq q)
      else l.filter (fun a => (key a).beq q) := by
  induction l with
  | nil =>
      by_cases hx : (key x).beq q = true <;> simp [insertLe, List.filter_cons, hx]
  | cons y ys ih =>
      by_cases h : (key x).le (key y) = true
      · rw [insertLe, if_pos h]
        by_cases hx : (key x).beq q = true <;> simp [List.filter_cons, hx]
      · rw [insertLe, if_neg h]
        by_cases hx : (key x).beq q = true
        · have hy : ((key y).beq q) = false := by
            by_contra hyc
            have hy' : (key y).beq q = true := by
              cases hyv : (key y).beq q
              · exact absurd hyv hyc
              · rfl
            apply h
            rw [Dec.le_iff_toRat]
            rw [Dec.beq_iff_toRat] at hx hy'
            rw [hx, hy']
          simp [List.filter_cons, hy, ih, hx]
        · have hx' : (key x).beq q = false := by
            cases hxv : (key x).beq q
            · rfl
            · exact absurd hxv hx
          by_cases hy : (key y).beq q = true <;>
            simp [List.filter_cons, hy, ih, hx']

theorem filter_sortByKey {α : Type} (key : α → Dec) (q : Dec) (l : List α) :
    (sortByKey key l).filter (fun a => (key a).beq q) =
      l.filter (fun a => (key a).beq q) := by
  induction l with
  | nil => simp [sortByKey]
  | cons x xs ih =>
      rw [sortByKey, filter_insertLe]
      by_cases hx : (key x).beq q = true <;> simp [List.filter_cons, hx, ih]

/-! ### Python `min`/`max` over float lists -/

theorem foldlMin_mem (x : Dec) (xs : List Dec) :
    xs.foldl (fun m y => if y.lt m then y else m) x ∈ x :: xs := by
  induction xs generalizing x with
  | nil => simp
  | cons y ys ih =>
      simp only [List.foldl_cons]
      rcases List.mem_cons.mp (ih (if y.lt x then y else x)) with h | h
      · rw [h]
        by_cases hy : y.lt x = true
        · simp [hy]
        · simp [hy]
      · exact List.mem_cons_of_mem _ (List.mem_cons_of_mem _ h)

theorem foldlMin_le (x : Dec) (xs : List Dec) :
    ∀ z ∈ x :: xs, (xs.foldl (fun m y => if y.lt m then y else m) x).toRat ≤ z.toRat := by
  induction xs generalizing x with
  | nil => simp
  | cons y ys ih =>
      intro z hz
      simp only [List.foldl_cons]
      have hseed1 : (if y.lt x then y else x).toRat ≤ x.toRat := by
        by_cases hy : y.lt x = true
        · rw [if_pos hy]
          exact ((Dec.lt_iff_toRat y x).mp hy).le
        · rw [if_neg hy]
      have hseed2 : (if y.lt x then y else x).toRat ≤ y.toRat := by
        by_cases hy : y.lt x = true
        · rw [if_pos hy]
        · rw [if_neg hy]
          by_contra hlt
          exact hy ((Dec.lt_iff_toRat y x).mpr (lt_of_not_le hlt))
      rcases List.mem_cons.mp hz with rfl | hz'
      · exact le_trans (ih _ _ (List.mem_cons_self _ _)) hseed1
      · rcases List.mem_cons.mp hz' with rfl | hz''
        · exact le_trans (ih _ _ (List.mem_cons_self _ _)) hseed2
        · exact ih _ z (List.mem_cons_of_mem _ hz'')

theorem foldlMax_mem (x : Dec) (xs : List Dec) :
    xs.foldl (fun m y => if m.lt y then y else m) x ∈ x :: xs := by
  induction xs generalizing x with
  | nil => simp
  | cons y ys ih =>
      simp only [List.foldl_cons]
      rcases List.mem_cons.mp (ih (if x.lt y then y else x)) with h | h
      · rw [h]
        by_cases hy : x.lt y = true
        · simp [hy]
        · simp [hy]
      · exact List.mem_cons_of_mem _ (List.mem_cons_of_mem _ h)

theorem foldlMax_ge (x : Dec) (xs : List Dec) :
    ∀ z ∈ x :: xs, z.toRat ≤ (xs.foldl (fun m y => if m.lt y then y else m) x).toRat := by
  induction xs generalizing x with
  | nil => simp
  | cons y ys ih =>
      intro z hz
      simp only [List.foldl_cons]
      have hseed1 : x.toRat ≤ (if x.lt y then y else x).toRat := by
        by_cases hy : x.lt y = true
        · rw [if_pos hy]
          exact ((Dec.lt_iff_toRat x y).mp hy).le
        · rw [if_neg hy]
      have hseed2 : y.toRat ≤ (if x.lt y then y else x).toRat := by
        by_cases hy : x.lt y = true
        · rw [if_pos hy]
        · rw [if_neg hy]
          by_contra hlt
          exact hy ((Dec.lt_iff_toRat x y).mpr (lt_of_not_le hlt))
      rcases List.mem_cons.mp hz with rfl | hz'
      · exact le_trans hseed1 (ih _ _ (List.mem_cons_self _ _))
      · rcases List.mem_cons.mp hz' with rfl | hz''
        · exact le_trans hseed2 (ih _ _ (List.mem_cons_self _ _))
        · exact ih _ z (List.mem_cons_of_mem _ hz'')

theorem decListMin_mem (xs : List Dec) (h : xs ≠ []) : decListMin xs ∈ xs := by
  cases xs with
  | nil => exact absurd rfl h
  | cons x l => exact foldlMin_mem x l

theorem decListMax_mem (xs : List Dec) (h : xs ≠ []) : decListMax xs ∈ xs := by
  cases xs with
  | nil => exact absurd rfl h
  | cons x l => exact foldlMax_mem x l

theorem decListMin_le_of_mem (xs : List Dec) (z : Dec) (hz : z ∈ xs) :
    (decListMin xs).toRat ≤ z.toRat := by
  cases xs with
  | nil => cases hz
  | cons x l => exact foldlMin_le x l z hz

theorem decListMax_ge_of_mem (xs : List Dec) (z : Dec) (hz : z ∈ xs) :
    z.toRat ≤ (decListMax xs).toRat := by
  cases xs with
  | nil => cases hz
  | cons x l => exact foldlMax_ge x l z hz

/-! ### Claim C10 -/

/-- Claim C10: for every input that is not a JSON list — for example the
generic dict format — `extract_node_paths` returns the empty structure
`{nodes: [], connections: [], capabilities: {}, capability_count: 0}`;
the event graph is built only from ROSBridge list inputs. -/
theorem extract_node_paths_empty_on_non_list (d : Json) (h : isArr d = false) :
    extractNodePaths d = .ok emptyNodePaths := by
  have hros : rosListOf d = none := by
    cases d <;> simp_all [rosListOf, isArr]
  unfold extractNodePaths extractNodePathsCore
  rw [hros]
  simp [Bind.bind, Except.bind, emptyNodePaths]

def c10Wit : Json := .obj [("metadata", .obj []), ("topics", .arr []), ("messages", .arr [])]

theorem extract_node_paths_empty_on_non_list_witness :
    isArr c10Wit = false ∧ extractNodePaths c10Wit = .ok emptyNodePaths :=
  ⟨rfl, extract_node_paths_empty_on_non_list c10Wit rfl⟩

/-! ### Claim C7 -/

/-- Claim C7: `validate_json_data` returns the boolean `False` — not an
exception and not a typed error — for any input matching none of the
three format-detection heuristics (the empty array `[]` is such an
input, see the witness), and consequently the upload handler never
invokes the extraction pipeline for it. -/
theorem validation_rejects_unrecognized (d : Json)
    (h1 : rosBridgeHeuristic d = false) (h2 : dictHeuristic d = false)
    (h3 : indicatorHeuristic d = false) :
    validateJsonData d = false ∧ uploadPipeline d = none := by
  have hv : validateJsonData d = false := by
    unfold validateJsonData
    rw [h1, h2, h3]
    simp
  refine ⟨hv, ?_⟩
  unfold uploadPipeline
  rw [hv]
  simp

theorem validation_rejects_unrecognized_witness :
    (rosBridgeHeuristic (.arr []) = false ∧ dictHeuristic (.arr []) = false ∧
       indicatorHeuristic (.arr []) = false) ∧
    validateJsonData (.arr []) = false ∧ uploadPipeline (.arr []) = none :=
  ⟨⟨rfl, rfl, by decide⟩, validation_rejects_unrecognized (.arr []) rfl rfl (by decide)⟩

/-! ### Claims C8 and C9: the shortest-path engine -/

theorem reaches_of_beq {G : NxGraph} {a n t : HKey} (h : Reaches G a n)
    (hb : n.beq t = true) : Reaches G a t := by
  cases h with
  | refl hab => exact .refl (HKey.beqChain hab hb)
  | snoc hr he =>
      rcases List.any_eq_true.mp he with ⟨e, hmem, hpe⟩
      rw [Bool.and_eq_true] at hpe
      exact .snoc hr (List.any_eq_true.mpr
        ⟨e, hmem, by rw [Bool.and_eq_true]; exact ⟨hpe.1, HKey.beqChain hpe.2 hb⟩⟩)

theorem bfsAux_reaches (G : NxGraph) (t a : HKey) :
    ∀ (fuel : Nat) (visited : List HKey) (queue : List (HKey × List HKey)) (p : List HKey),
      (∀ q ∈ queue, Reaches G a q.1) →
      bfsAux G t fuel visited queue = some p → Reaches G a t := by
  intro fuel
  induction fuel with
  | zero =>
      intro visited queue p _ h
      simp [bfsAux] at h
  | succ n ih =>
      intro visited queue p hq h
      cases queue with
      | nil => simp [bfsAux] at h
      | cons head rest =>
          obtain ⟨hn, hpath⟩ := head
          rw [bfsAux] at h
          by_cases hb : hn.beq t = true
          · exact reaches_of_beq (hq _ (List.mem_cons_self _ _)) hb
          · rw [if_neg hb] at h
            refine ih _ _ p ?_ h
            intro q hqmem
            rcases List.mem_append.mp hqmem with hq1 | hq2
            · exact hq q (List.mem_cons_of_mem _ hq1)
            · rcases List.mem_map.mp hq2 with ⟨m, hm, rfl⟩
              have hmm : m ∈ neighbors G hn := (List.mem_filter.mp hm).1
              rcases List.mem_map.mp hmm with ⟨e, he, rfl⟩
              exact .snoc (hq _ (List.mem_cons_self _ _))
                (List.any_eq_true.mpr ⟨e, (List.mem_filter.mp he).1,
                  by rw [Bool.and_eq_true]
                     exact ⟨(List.mem_filter.mp he).2, HKey.beqSelf _⟩⟩)

/-- Claim C8: for any node `a` present in the event graph, the
shortest-path query with `start == end == a` succeeds with the trivial
single-node path `[a]` — it does not raise. -/
theorem shortest_path_self (G : NxGraph) (a : HKey)
    (h : G.nodes.any (·.beq a) = true) :
    nxShortestPath G a a = .ok [a] := by
  unfold nxShortestPath
  rw [h]
  have hstep : bfsAux G a (G.nodes.length + G.edges.length + 1) [a] [(a, [a])] =
      some [a] := by
    rw [bfsAux]
    simp [HKey.beqSelf]
  simp [hstep]

def c8Graph : NxGraph := ⟨[.str "x"], []⟩

theorem shortest_path_self_witness :
    c8Graph.nodes.any (·.beq (.str "x")) = true ∧
    nxShortestPath c8Graph (.str "x") (.str "x") = .ok [.str "x"] :=
  ⟨by decide, shortest_path_self c8Graph (.str "x") (by decide)⟩

/-- Claim C9: for two nodes `a` and `b` both present in the graph but
with no directed path from `a` to `b`, the shortest-path query fails
with the typed `noPath` error — a value distinct from the
`nodeNotFound` error raised for absent nodes (and from any `ok` path,
in particular the empty one). -/
theorem shortest_path_disconnected (G : NxGraph) (a b : HKey)
    (ha : G.nodes.any (·.beq a) = true) (hb : G.nodes.any (·.beq b) = true)
    (hnr : ¬ Reaches G a b) :
    nxShortestPath G a b = .error .noPath ∧ NxErr.noPath ≠ NxErr.nodeNotFound := by
  refine ⟨?_, by simp⟩
  unfold nxShortestPath
  rw [ha, hb]
  cases hres : bfsAux G b (G.nodes.length + G.edges.length + 1) [a] [(a, [a])] with
  | some p =>
      refine absurd (bfsAux_reaches G b a _ _ _ p ?_ hres) hnr
      intro q hq
      rcases List.mem_cons.mp hq with rfl | hcon
      · exact .refl (HKey.beqSelf a)
      · cases hcon
  | none => simp [hres]

def c9Graph : NxGraph := ⟨[.str "x", .str "y"], []⟩

theorem shortest_path_disconnected_witness :
    (c9Graph.nodes.any (·.beq (.str "x")) = true ∧
     c9Graph.nodes.any (·.beq (.str "y")) = true ∧
     ¬ Reaches c9Graph (.str "x") (.str "y")) ∧
    nxShortestPath c9Graph (.str "x") (.str "y") = .error .noPath ∧
    NxErr.noPath ≠ NxErr.nodeNotFound := by
  have hnr : ¬ Reaches c9Graph (.str "x") (.str "y") := by
    intro h
    cases h with
    | refl hb => exact absurd hb (by decide)
    | snoc hr he => simp [c9Graph] at he
  exact ⟨⟨by decide, by decide, hnr⟩,
    shortest_path_disconnected c9Graph (.str "x") (.str "y") (by decide) (by decide) hnr⟩

/-! ### Claim C3 -/

/-- Claim C3 (amended): timestamp normalization in the ROSBridge list
branch tries only (a) the header stamp, then (c) the positional index
within the topic's group; in particular a publish message without a
usable header stamp is assigned the positional index even when it
carries a flat numeric `timestamp` field — that field is consulted only
by the generic dict format. -/
theorem ros_time_ignores_flat_timestamp (gs : TSGroups) (m topic : Json)
    (mkvs : List (String × Json)) (k : HKey)
    (h1 : publishParts m = some (topic, .obj mkvs))
    (h2 : toHKey topic = .ok k)
    (h3 : stampOf mkvs = .ok none) :
    tsGroupStep gs m = .ok (groupsAppend gs k topic
      ⟨Dec.ofNat ((groupsFind gs k).getD (topic, [])).2.length, .obj mkvs⟩) := by
  unfold tsGroupStep
  rw [h1]
  show tsGroupAdd gs topic (.obj mkvs) = _
  simp [tsGroupAdd, stampOfMsg, h2, h3, Bind.bind, Except.bind, Option.getD, Dec.beqRefl]

def c3WitMsg : Json :=
  .obj [("op", .str "publish"), ("topic", .str "/t"),
        ("msg", .obj [("timestamp", .num 5)])]

theorem ros_time_ignores_flat_timestamp_witness :
    (publishParts c3WitMsg = some (.str "/t", .obj [("timestamp", .num 5)]) ∧
     toHKey (.str "/t") = .ok (.str "/t") ∧
     stampOf [("timestamp", .num 5)] = .ok none) ∧
    tsGroupStep [] c3WitMsg = .ok [(.str "/t", .str "/t",
      [⟨Dec.ofNat 0, .obj [("timestamp", .num 5)]⟩])] := by
  refine ⟨⟨rfl, rfl, rfl⟩, ?_⟩
  have h := ros_time_ignores_flat_timestamp [] c3WitMsg (.str "/t")
    [("timestamp", .num 5)] (.str "/t") rfl rfl rfl
  exact h

/-- Claim C3 counterexample: a ROSBridge publish message lacking a
header stamp but carrying the flat numeric field `timestamp: 5` is
assigned time `0` (its positional index), not `5.0` as the claim
states. -/
theorem ros_flat_timestamp_counterexample :
    extractTimeSeries (.arr [c3WitMsg]) = .ok [(.str "/t", .str "/t",
      [[("index", .num 0), ("time", .num 0), ("timestamp", .num 5)]])] ∧
    jget? [("index", Json.num 0), ("time", Json.num 0), ("timestamp", Json.num 5)]
      "time" = some (.num 0) ∧
    jget? [("index", Json.num 0), ("time", Json.num 0), ("timestamp", Json.num 5)]
      "time" ≠ some (.num 5) := by
  refine ⟨rfl, rfl, ?_⟩
  intro h
  simp [jget?] at h
  exact absurd h (by decide)

/-! ### Claim C4 -/

theorem pyEq_obj_str (v : Json) (s : String) (h : isObj v = true) :
    pyEq v (.str s) = false := by
  cases v <;> simp_all [isObj] <;> rfl

theorem tail_default_on_roslist (d : Json) (xs : List Json)
    (h1 : rosListOf d = some xs) :
    extractTimeRangeTail d = .ok (.num 0, .num 100) := by
  obtain ⟨ys, rfl, hall⟩ : ∃ ys, d = .arr ys ∧ ys.all isObj = true := by
    cases d with
    | arr ys =>
        refine ⟨ys, rfl, ?_⟩
        by_cases hg : (!ys.isEmpty && ys.all isObj) = true
        · have hg' := hg
          rw [Bool.and_eq_true] at hg'
          exact hg'.2
        · simp [rosListOf, hg] at h1
    | null => simp [rosListOf] at h1
    | bool b => simp [rosListOf] at h1
    | num q => simp [rosListOf] at h1
    | str s => simp [rosListOf] at h1
    | obj kvs => simp [rosListOf] at h1
  have hmem : ∀ s : String, (ys.any (fun x => pyEq x (.str s))) = false := by
    intro s
    rw [List.any_eq_false]
    intro x hx
    have hobj : isObj x = true := by
      rw [List.all_eq_true] at hall
      exact hall x hx
    simp [pyEq_obj_str x s hobj]
  unfold extractTimeRangeTail
  simp [pyContainsStr, hmem, Bind.bind, Except.bind]

/-- Claim C4: for every valid ROSBridge input, `extract_time_range`
returns a pair `(min, max)` with `min <= max`, both values members of
the list of normalized header timestamps actually present, or exactly
`(0, 100)` when no timestamps are discoverable. -/
theorem time_range_minmax (d : Json) (xs : List Json) (ts : List Dec) (mn mx : Json)
    (h0 : rosBridgeHeuristic d = true)
    (h1 : rosListOf d = some xs)
    (h2 : xs.foldlM timeRangeStep [] = .ok ts)
    (h3 : extractTimeRange d = .ok (mn, mx)) :
    (ts ≠ [] ∧ mn = .num (decListMin ts) ∧ mx = .num (decListMax ts) ∧
       decListMin ts ∈ ts ∧ decListMax ts ∈ ts ∧
       (decListMin ts).le (decListMax ts) = true) ∨
    (ts = [] ∧ mn = .num 0 ∧ mx = .num 100) := by
  unfold extractTimeRange at h3
  rw [h1] at h3
  rcases exceptBindOk h3 with ⟨ts', hts', hrest⟩
  rw [h2] at hts'
  injection hts' with hts''
  subst hts''
  by_cases hne : ts.isEmpty = true
  · right
    have hnil : ts = [] := by
      cases ts
      · rfl
      · simp [List.isEmpty] at hne
    rw [if_neg (by simp [hne])] at hrest
    rw [tail_default_on_roslist d xs h1] at hrest
    injection hrest with hp
    refine ⟨hnil, ?_, ?_⟩
    · exact (congrArg Prod.fst hp).symm
    · exact (congrArg Prod.snd hp).symm
  · left
    have hnil : ts ≠ [] := by
      intro hc
      rw [hc] at hne
      exact hne rfl
    rw [if_pos (by simp [Bool.not_eq_true] at hne ⊢; simp [hne])] at hrest
    injection hrest with hp
    refine ⟨hnil, (congrArg Prod.fst hp).symm, (congrArg Prod.snd hp).symm,
      decListMin_mem ts hnil, decListMax_mem ts hnil, ?_⟩
    rw [Dec.le_iff_toRat]
    exact decListMin_le_of_mem ts _ (decListMax_mem ts hnil)

def c4Wit : Json :=
  .arr [.obj [("op", .str "publish"), ("topic", .str "/t"),
    ("msg", .obj [("header", .obj [("stamp",
      .obj [("secs", .num 10), ("nsecs", .num 500000000)])])])]]

theorem time_range_minmax_witness :
    (rosBridgeHeuristic c4Wit = true ∧
     extractTimeRange c4Wit = .ok (.num ⟨105, 1⟩, .num ⟨105, 1⟩)) ∧
    ((([⟨105, 1⟩] : List Dec) ≠ [] ∧
        Json.num ⟨105, 1⟩ = .num (decListMin [⟨105, 1⟩]) ∧
        Json.num ⟨105, 1⟩ = .num (decListMax [⟨105, 1⟩]) ∧
        decListMin [⟨105, 1⟩] ∈ ([⟨105, 1⟩] : List Dec) ∧
        decListMax [⟨105, 1⟩] ∈ ([⟨105, 1⟩] : List Dec) ∧
        (decListMin [⟨105, 1⟩]).le (decListMax [⟨105, 1⟩]) = true) ∨
     (([⟨105, 1⟩] : List Dec) = [] ∧ Json.num ⟨105, 1⟩ = .num 0 ∧
        Json.num ⟨105, 1⟩ = .num 100)) :=
  ⟨⟨rfl, rfl⟩,
   time_range_minmax c4Wit _ [⟨105, 1⟩] (.num ⟨105, 1⟩) (.num ⟨105, 1⟩) rfl rfl rfl rfl⟩

/-! ### Claim C6 -/

theorem pass2Go_publish (st : P2State) (idx : Nat) (m topic : Json)
    (mkvs : List (String × Json))
    (h2 : publishParts m = some (topic, .obj mkvs)) :
    pass2Go st idx m =
      (do
        let tOpt ← stampOf mkvs
        let timestamp := tOpt.getD 0
        let srcRes ← sourceResolve st.reg topic mkvs idx
        let tgtRes ← targetResolve st.reg mkvs idx
        let reg' ← trackGetRunner st.reg srcRes.2.2 tgtRes.2.2.2.2 tgtRes.2.2.1
                     timestamp tgtRes.2.2.2.1
        .ok (addConn st reg' idx topic timestamp srcRes tgtRes)) := by
  unfold pass2Go
  rw [h2]

theorem targetFallback_some (found : Option String × Json × Json) (ttext : Json)
    (idx : Nat) (r : Option String × Json)
    (h : targetFallback found ttext idx = .ok r) : ∃ i, r.1 = some i := by
  unfold targetFallback at h
  cases hf : found.1 with
  | some i =>
      rw [hf] at h
      injection h with h'
      exact ⟨i, by rw [← h']⟩
  | none =>
      rw [hf] at h
      by_cases ht : truthy ttext = true
      · rw [if_pos ht] at h
        rcases exceptBindOk h with ⟨nm, hnm, h'⟩
        injection h' with h''
        exact ⟨_, by rw [← h'']⟩
      · rw [if_neg ht] at h
        injection h with h'
        exact ⟨_, by rw [← h']⟩

/-- Claim C6: for a ROSBridge publish message that resolves both a
source id and a target id, a missing or non-convertible `target.event`
value still yields the connection, with `event_type = 0` — the
conversion default never raises (in the embedding the conversion
`eventTypeOf` is a total function). -/
theorem event_default_on_bad_event (st : P2State) (idx : Nat) (m topic : Json)
    (mkvs tkvs : List (String × Json)) (st' : P2State)
    (src : Option String × Json × Json)
    (h1 : pass2Step st (idx, m) = .ok st')
    (h2 : publishParts m = some (topic, .obj mkvs))
    (h3 : jget? mkvs "target" = some (.obj tkvs))
    (h4 : ∀ v, jget? tkvs "event" = some v → pyTryInt v = none)
    (h5 : sourceResolve st.reg topic mkvs idx = .ok src)
    (h6 : src.1.isSome = true) :
    ∃ c, st'.conns = st.conns ++ [c] ∧ c.event = 0 := by
  have hev : eventTypeOf tkvs = 0 := by
    unfold eventTypeOf
    cases hje : jget? tkvs "event" with
    | none => rfl
    | some v =>
        show (pyTryInt v).getD 0 = 0
        rw [h4 v hje]
        rfl
  simp only [pass2Step] at h1
  rw [pass2Go_publish st idx m topic mkvs h2] at h1
  rcases exceptBindOk h1 with ⟨tOpt, hT, h1a⟩
  rcases exceptBindOk h1a with ⟨src', hS, h1b⟩
  rw [h5] at hS
  injection hS with hS'
  subst hS'
  rcases exceptBindOk h1b with ⟨tgt, hTg, h1c⟩
  rcases exceptBindOk h1c with ⟨reg', hR, h1d⟩
  injection h1d with h1e
  -- analyse targetResolve: its id is always resolved and its event is 0
  unfold targetResolve at hTg
  rw [h3] at hTg
  rcases exceptBindOk hTg with ⟨found, hF, hTg1⟩
  rcases exceptBindOk hTg1 with ⟨res, hRes, hTg2⟩
  injection hTg2 with hTg3
  rcases targetFallback_some found _ idx res hRes with ⟨tid, htid⟩
  rcases Option.isSome_iff_exists.mp h6 with ⟨sid, hsid⟩
  subst h1e
  refine ⟨⟨"conn_" ++ toString idx, sid, tid, topic, tOpt.getD 0, 0, tgt.2.2.1⟩, ?_, rfl⟩
  unfold addConn
  rw [← hTg3]
  simp only [hsid, htid, hev]

def c6WitMsg : Json :=
  .obj [("op", .str "publish"), ("topic", .str "/t"),
        ("msg", .obj [("source", .obj []), ("target", .obj [("event", .str "oops")])])]

def c6St0 : P2State := ⟨[], [], [], []⟩

theorem event_default_on_bad_event_witness :
    (publishParts c6WitMsg =
       some (.str "/t", .obj [("source", .obj []), ("target", .obj [("event", .str "oops")])]) ∧
     (∀ v, jget? [("event", Json.str "oops")] "event" = some v → pyTryInt v = none)) ∧
    ∃ c, ((pass2Step c6St0 (0, c6WitMsg)).toOption.getD c6St0).conns = [] ++ [c] ∧
      c.event = 0 := by
  have h4 : ∀ v, jget? [("event", Json.str "oops")] "event" = some v → pyTryInt v = none := by
    intro v hv
    rw [show jget? [("event", Json.str "oops")] "event" = some (.str "oops") from rfl] at hv
    injection hv with h
    rw [← h]
    rfl
  refine ⟨⟨rfl, h4⟩, ?_⟩
  exact event_default_on_bad_event c6St0 0 c6WitMsg (.str "/t")
    [("source", Json.obj []), ("target", Json.obj [("event", Json.str "oops")])]
    [("event", Json.str "oops")]
    ((pass2Step c6St0 (0, c6WitMsg)).toOption.getD c6St0)
    (some "source_0", Json.str "t", Json.str "")
    (by rfl) (by rfl) (by rfl) h4 (by rfl) (by rfl)

/-! ### Claim C2 -/

/-- Claim C2: the connections list returned by `extract_node_paths` is
sorted ascending by timestamp — adjacent connections satisfy
`c[i].timestamp <= c[i+1].timestamp` — and the sort is stable:
restricted to any single timestamp value, the sorted list coincides
with the pre-sort discovery-order list produced by the two passes. -/
theorem connections_sorted_stable (d : Json) (np : NodePaths)
    (h : extractNodePaths d = .ok np) :
    connsNonDec np.connections ∧
    ∃ raw, extractNodePathsCore d = .ok raw ∧
      ∀ q : Dec, np.connections.filter (fun c => c.timestamp.beq q) =
        raw.connections.filter (fun c => c.timestamp.beq q) := by
  unfold extractNodePaths at h
  rcases exceptBindOk h with ⟨raw, hraw, hrest⟩
  by_cases he : raw.connections.isEmpty = true
  · rw [if_pos he] at hrest
    injection hrest with h'
    subst h'
    have hnil : raw.connections = [] := by
      cases hc : raw.connections with
      | nil => rfl
      | cons a l => rw [hc] at he; simp [List.isEmpty] at he
    refine ⟨?_, raw, hraw, fun q => rfl⟩
    unfold connsNonDec
    rw [hnil]
    exact List.chain'_nil
  · rw [if_neg he] at hrest
    injection hrest with h'
    subst h'
    refine ⟨?_, raw, hraw, fun q => filter_sortByKey Connection.timestamp q raw.connections⟩
    exact (pairwise_sortByKey Connection.timestamp raw.connections).chain'

def c2Msg (secs : Int) : Json :=
  .obj [("op", .str "publish"), ("topic", .str "/capabilities/events"),
        ("msg", .obj [
          ("header", .obj [("stamp", .obj [("secs", .num ⟨secs, 0⟩), ("nsecs", .num 0)])]),
          ("source", .obj [("capability", .str "cap/A")]),
          ("target", .obj [("capability", .str "cap/B"), ("event", .num 1)])])]

def c2Wit : Json := .arr [c2Msg 5, c2Msg 2]

theorem connections_sorted_stable_witness :
    ∃ np, extractNodePaths c2Wit = .ok np ∧
      (connsNonDec np.connections ∧
       ∃ raw, extractNodePathsCore c2Wit = .ok raw ∧
         ∀ q : Dec, np.connections.filter (fun c => c.timestamp.beq q) =
           raw.connections.filter (fun c => c.timestamp.beq q)) :=
  ⟨_, rfl, connections_sorted_stable c2Wit _ rfl⟩

/-! ### Claim C1 -/

theorem foldlM_singleton {ε α σ : Type} (f : σ → α → Except ε σ) (a : α) (s : σ) :
    ([a].foldlM f s) = f s a := by
  cases h : f s a <;> simp [List.foldlM, h]

theorem foldlM_append_except {ε α σ : Type} (f : σ → α → Except ε σ) (l₁ l₂ : List α)
    (s : σ) :
    (l₁ ++ l₂).foldlM f s = (l₁.foldlM f s) >>= fun s' => l₂.foldlM f s' := by
  induction l₁ generalizing s with
  | nil => simp [List.foldlM]
  | cons a l ih =>
      rw [List.cons_append, List.foldlM_cons, List.foldlM_cons]
      cases h : f s a with
      | error e => simp [Bind.bind, Except.bind]
      | ok s' =>
          simp only [Bind.bind, Except.bind]
          exact ih s'

theorem pass1Msg_eq_fold (st : CapReg × Nat) (m : Json) :
    pass1Msg st m = (capOccurrences m).foldlM discoverCap st := by
  unfold pass1Msg capOccurrences
  cases hp : publishParts m with
  | none => rfl
  | some tm =>
      obtain ⟨t, mc⟩ := tm
      cases mc with
      | obj mkvs =>
          exact (foldlM_append_except discoverCap (capOfPart mkvs "source")
            (capOfPart mkvs "target") st).symm
      | null => rfl
      | bool b => rfl
      | num q => rfl
      | str s => rfl
      | arr ys => rfl

theorem pass1_fold_eq (xs : List Json) (st : CapReg × Nat) :
    xs.foldlM pass1Msg st = (discoverySeq xs).foldlM discoverCap st := by
  induction xs generalizing st with
  | nil => simp [discoverySeq, List.foldlM]
  | cons m ms ih =>
      rw [List.foldlM_cons, pass1Msg_eq_fold]
      unfold discoverySeq
      rw [List.map_cons, List.flatten_cons, foldlM_append_except]
      exact bind_congr fun st' => ih st'

theorem regFind_isSome_iff (reg : CapReg) (k : HKey) :
    (regFind reg k).isSome = (reg.map (·.1)).any (·.beq k) := by
  induction reg with
  | nil => rfl
  | cons e rest ih =>
      by_cases h : e.1.beq k = true <;>
        simp [regFind, List.find?_cons, h] <;>
        simpa [regFind] using ih

theorem discover_fold_char (os : List Json) :
    ∀ (reg : CapReg) (next : Nat) (res : CapReg × Nat),
      os.foldlM discoverCap (reg, next) = .ok res →
      ∃ hks tail,
        keysSeq os = .ok hks ∧
        res.1 = reg ++ tail ∧
        res.2 = next + tail.length ∧
        tail.map (·.1) = dedupFirstAux (reg.map (·.1)) hks ∧
        tail.map (fun e => e.2.id) = List.range' next tail.length := by
  induction os with
  | nil =>
      intro reg next res h
      injection h with h'
      refine ⟨[], [], rfl, ?_, ?_, rfl, rfl⟩
      · rw [← h']
        simp
      · rw [← h']
        simp
  | cons o os ih =>
      intro reg next res h
      rw [List.foldlM_cons] at h
      rcases exceptBindOk h with ⟨st1, hst1, hrest⟩
      unfold discoverCap at hst1
      rcases exceptBindOk hst1 with ⟨k, hk, hst1'⟩
      by_cases hmem : (regFind reg k).isSome = true
      · rw [if_pos hmem] at hst1'
        injection hst1' with h'
        rw [← h'] at hrest
        rcases ih reg next res hrest with ⟨hks, tail, hmap, h1, h2, h3, h4⟩
        refine ⟨k :: hks, tail, ?_, h1, h2, ?_, h4⟩
        · simp [keysSeq, hk, hmap, Bind.bind, Except.bind]
        · unfold dedupFirstAux
          rw [if_pos (by rw [← regFind_isSome_iff]; exact hmem)]
          exact h3
      · rw [if_neg hmem] at hst1'
        injection hst1' with h'
        rw [← h'] at hrest
        rcases ih _ _ res hrest with ⟨hks, tail, hmap, h1, h2, h3, h4⟩
        refine ⟨k :: hks, (k, ⟨next, o, "capability_" ++ toString next, []⟩) :: tail,
          ?_, ?_, ?_, ?_, ?_⟩
        · simp [keysSeq, hk, hmap, Bind.bind, Except.bind]
        · rw [h1, List.append_assoc]
          rfl
        · rw [h2, List.length_cons]
          omega
        · rw [List.map_cons]
          unfold dedupFirstAux
          rw [if_neg (by rw [← regFind_isSome_iff]; simp [hmem])]
          rw [h3]
          simp
        · rw [List.map_cons, h4, List.length_cons]
          rfl

theorem trackGetRunner_proj (reg : CapReg) (a b c : Json) (t : Dec) (ev : Int)
    (reg' : CapReg) (h : trackGetRunner reg a b c t ev = .ok reg') :
    reg'.map (fun e => (e.1, e.2.id)) = reg.map (fun e => (e.1, e.2.id)) := by
  unfold trackGetRunner at h
  by_cases hg : (pyEq a (.str getRunnerStr) || pyEq b (.str getRunnerStr)) = true
  · rw [if_pos hg] at h
    rcases exceptBindOk h with ⟨k, hk, h'⟩
    by_cases hf : (regFind reg k).isSome = true
    · rw [if_pos hf] at h'
      injection h' with h''
      rw [← h'']
      unfold regAppendMsg
      rw [List.map_map]
      apply List.map_congr_left
      intro e he
      by_cases hb : e.1.beq k = true <;> simp [hb]
    · rw [if_neg hf] at h'
      injection h' with h''
      rw [← h'']
  · rw [if_neg hg] at h
    injection h with h''
    rw [← h'']

theorem addConn_reg (st : P2State) (reg' : CapReg) (idx : Nat) (topic : Json)
    (timestamp : Dec) (src : Option String × Json × Json)
    (tgt : Option String × Json × Json × Int × Json) :
    (addConn st reg' idx topic timestamp src tgt).reg = reg' := by
  unfold addConn
  cases src.1 <;> cases tgt.1 <;> rfl

theorem pass2Go_reg_proj (st : P2State) (idx : Nat) (m : Json) (st' : P2State)
    (h : pass2Go st idx m = .ok st') :
    st'.reg.map (fun e => (e.1, e.2.id)) = st.reg.map (fun e => (e.1, e.2.id)) := by
  unfold pass2Go at h
  cases hp : publishParts m with
  | none =>
      rw [hp] at h
      injection h with h'
      rw [← h']
  | some tm =>
      obtain ⟨topic, mc⟩ := tm
      rw [hp] at h
      cases mc with
      | obj mkvs =>
          rcases exceptBindOk h with ⟨tOpt, hT, h1⟩
          rcases exceptBindOk h1 with ⟨src, hS, h2⟩
          rcases exceptBindOk h2 with ⟨tgt, hTg, h3⟩
          rcases exceptBindOk h3 with ⟨reg', hR, h4⟩
          injection h4 with h5
          rw [← h5, addConn_reg]
          exact trackGetRunner_proj _ _ _ _ _ _ _ hR
      | null => injection h with h'; rw [← h']
      | bool b => injection h with h'; rw [← h']
      | num q => injection h with h'; rw [← h']
      | str s => injection h with h'; rw [← h']
      | arr ys => injection h with h'; rw [← h']

theorem pass2_fold_reg_proj (ims : List (Nat × Json)) :
    ∀ (st st' : P2State), ims.foldlM pass2Step st = .ok st' →
      st'.reg.map (fun e => (e.1, e.2.id)) = st.reg.map (fun e => (e.1, e.2.id)) := by
  induction ims with
  | nil =>
      intro st st' h
      injection h with h'
      rw [← h']
  | cons im ims ih =>
      intro st st' h
      rw [List.foldlM_cons] at h
      rcases exceptBindOk h with ⟨st1, hone, hrest⟩
      rw [ih st1 st' hrest]
      exact pass2Go_reg_proj st im.1 im.2 st1 hone

/-- Claim C1: `extract_node_paths` assigns capability ids by first
discovery in document order — scanning messages in order, a message's
`source.capability` before its `target.capability` — so the registry
lists each distinct capability key once, in first-appearance order,
with consecutive integer ids starting at 1; a recurring name keeps its
originally assigned id because it is never re-registered. -/
theorem capability_ids_first_discovery (d : Json) (xs : List Json) (np : NodePaths)
    (h1 : rosListOf d = some xs) (h2 : extractNodePaths d = .ok np) :
    ∃ hks, keysSeq (discoverySeq xs) = .ok hks ∧
      np.capabilities.map (·.1) = dedupFirst hks ∧
      np.capabilities.map (fun e => e.2.id) = List.range' 1 np.capabilities.length := by
  unfold extractNodePaths at h2
  rcases exceptBindOk h2 with ⟨np0, hc, hrest⟩
  have hcaps : np.capabilities = np0.capabilities := by
    by_cases he : np0.connections.isEmpty = true
    · rw [if_pos he] at hrest
      injection hrest with h'
      rw [← h']
    · rw [if_neg he] at hrest
      injection hrest with h'
      rw [← h']
  unfold extractNodePathsCore at hc
  rw [h1] at hc
  rcases exceptBindOk hc with ⟨p1, hp1, hc2⟩
  rcases exceptBindOk hc2 with ⟨stF, hp2, hc3⟩
  injection hc3 with hc4
  have hnp0 : np0.capabilities = stF.reg := by
    rw [← hc4]
  rw [pass1_fold_eq] at hp1
  obtain ⟨reg1, next1⟩ := p1
  rcases discover_fold_char (discoverySeq xs) [] 1 (reg1, next1) hp1 with
    ⟨hks, tail, hkeys, htail, hnext, hmap, hids⟩
  have hreg1 : reg1 = tail := by simpa using htail
  have hproj : stF.reg.map (fun e => (e.1, e.2.id)) =
      reg1.map (fun e => (e.1, e.2.id)) :=
    pass2_fold_reg_proj _ _ _ hp2
  have hfst : np.capabilities.map (·.1) = reg1.map (·.1) := by
    rw [hcaps, hnp0]
    have := congrArg (List.map Prod.fst) hproj
    simpa [List.map_map] using this
  have hid : np.capabilities.map (fun e => e.2.id) = reg1.map (fun e => e.2.id) := by
    rw [hcaps, hnp0]
    have := congrArg (List.map Prod.snd) hproj
    simpa [List.map_map] using this
  have hlen : np.capabilities.length = reg1.length := by
    have := congrArg List.length hproj
    simpa [hcaps, hnp0] using this
  refine ⟨hks, hkeys, ?_, ?_⟩
  · rw [hfst, hreg1, hmap]
    rfl
  · rw [hid, hlen, hreg1, hids]

def c1Msg (src tgt : String) : Json :=
  .obj [("op", .str "publish"), ("topic", .str "/capabilities/events"),
        ("msg", .obj [
          ("source", .obj [("capability", .str src)]),
          ("target", .obj [("capability", .str tgt)])])]

def c1Wit : Json := .arr [c1Msg "cap/A" "cap/B", c1Msg "cap/B" "cap/A"]

theorem capability_ids_first_discovery_witness :
    ∃ np, extractNodePaths c1Wit = .ok np ∧
      ∃ hks, keysSeq (discoverySeq [c1Msg "cap/A" "cap/B", c1Msg "cap/B" "cap/A"]) =
          .ok hks ∧
        np.capabilities.map (·.1) = dedupFirst hks ∧
        np.capabilities.map (fun e => e.2.id) = List.range' 1 np.capabilities.length :=
  ⟨_, rfl, capability_ids_first_discovery c1Wit _ _ rfl rfl⟩

/-! ### Claim C5: ordering of the extracted time series -/

theorem find?_consPos {α : Type} (p : α → Bool) (a : α) (l : List α) (h : p a = true) :
    List.find? p (a :: l) = some a := by
  simp [List.find?, h]

theorem find?_consNeg {α : Type} (p : α → Bool) (a : α) (l : List α) (h : p a = false) :
    List.find? p (a :: l) = List.find? p l := by
  simp [List.find?, h]

theorem jget?_map_update (p : Point) (k k' : String) (v : Json) (h : (k == k') = false) :
    jget? (p.map (fun kv => if kv.1 == k then (k, v) else kv)) k' = jget? p k' := by
  induction p with
  | nil => rfl
  | cons kv rest ih =>
      unfold jget?
      rw [List.map_cons]
      by_cases hk : (kv.1 == k) = true
      · have hkv : kv.1 = k := by simpa using hk
        rw [if_pos hk]
        rw [find?_consNeg (fun x : String × Json => x.1 == k') (k, v) _ (by simp [h])]
        rw [find?_consNeg (fun x : String × Json => x.1 == k') kv _ (by simp [hkv, h])]
        exact ih
      · rw [if_neg hk]
        by_cases hk' : (kv.1 == k') = true
        · rw [find?_consPos (fun x : String × Json => x.1 == k') kv _ hk',
            find?_consPos (fun x : String × Json => x.1 == k') kv _ hk']
        · have hk2 : (kv.1 == k') = false := by simpa using hk'
          rw [find?_consNeg (fun x : String × Json => x.1 == k') kv _ hk2,
            find?_consNeg (fun x : String × Json => x.1 == k') kv _ hk2]
          exact ih

theorem jget?_append_single (p : Point) (k k' : String) (v : Json) (h : (k == k') = false) :
    jget? (p ++ [(k, v)]) k' = jget? p k' := by
  induction p with
  | nil =>
      unfold jget?
      rw [List.nil_append]
      rw [find?_consNeg (fun x : String × Json => x.1 == k') (k, v) _ (by simp [h])]
  | cons kv rest ih =>
      unfold jget?
      rw [List.cons_append]
      by_cases hk' : (kv.1 == k') = true
      · rw [find?_consPos (fun x : String × Json => x.1 == k') kv _ hk',
          find?_consPos (fun x : String × Json => x.1 == k') kv _ hk']
      · have hk2 : (kv.1 == k') = false := by simpa using hk'
        rw [find?_consNeg (fun x : String × Json => x.1 == k') kv _ hk2,
          find?_consNeg (fun x : String × Json => x.1 == k') kv _ hk2]
        exact ih

theorem jget?_setKey_ne (p : Point) (k k' : String) (v : Json) (h : (k == k') = false) :
    jget? (setKey p k v) k' = jget? p k' := by
  unfold setKey
  by_cases hp : p.any (·.1 == k) = true
  · rw [if_pos hp]
    exact jget?_map_update p k k' v h
  · rw [if_neg hp]
    exact jget?_append_single p k k' v h

theorem jget?_time_base (i : Nat) (t : Dec) :
    jget? [("index", Json.num (Dec.ofNat i)), ("time", Json.num t)] "time" =
      some (Json.num t) := rfl

/-- Tagged keys cannot collide with `time`: the prefixes are 7 characters
long while `time` is 4. -/
theorem append7_ne_time (t s : String) (ht : t.length = 7) :
    ((t ++ s) == "time") = false := by
  rw [beq_eq_false_iff_ne]
  intro he
  have hlen := congrArg String.length he
  rw [String.length_append, ht] at hlen
  have h4 : ("time" : String).length = 4 := rfl
  rw [h4] at hlen
  omega

theorem fold_gpStep1_time (mkvs : List (String × Json)) :
    (∀ kv ∈ mkvs, kv.1 = "time" → numVal kv.2 = none) →
    ∀ acc : Point × Bool,
      jget? (mkvs.foldl gpStep1 acc).1 "time" = jget? acc.1 "time" := by
  induction mkvs with
  | nil => intro _ acc; rfl
  | cons kv rest ih =>
      intro hsafe acc
      rw [List.foldl_cons]
      rw [ih (fun x hx hxt => hsafe x (List.mem_cons_of_mem _ hx) hxt) (gpStep1 acc kv)]
      unfold gpStep1
      cases hnv : numVal kv.2 with
      | none => rfl
      | some q =>
          have hne : (kv.1 == "time") = false := by
            by_cases hkt : kv.1 = "time"
            · have := hsafe kv (List.mem_cons_self _ _) hkt
              rw [hnv] at this
              exact absurd this (by simp)
            · exact beq_eq_false_iff_ne.mpr hkt
          exact jget?_setKey_ne _ _ _ _ hne

theorem fold_gpStepTagged_time (tag : String)
    (htag : ∀ s, ((tag ++ s) == "time") = false)
    (tkvs : List (String × Json)) :
    ∀ acc : Point × Bool,
      jget? (tkvs.foldl (gpStepTagged tag) acc).1 "time" = jget? acc.1 "time" := by
  induction tkvs with
  | nil => intro acc; rfl
  | cons kv rest ih =>
      intro acc
      rw [List.foldl_cons, ih]
      unfold gpStepTagged
      cases hnv : numVal kv.2 with
      | none => rfl
      | some q =>
          show jget? (if acc.1.any (fun x => x.1 == kv.1) then acc
              else (setKey acc.1 (tag ++ kv.1) (Json.num q), true)).1 "time" =
            jget? acc.1 "time"
          by_cases hmem : acc.1.any (fun x => x.1 == kv.1) = true
          · rw [if_pos hmem]
          · rw [if_neg hmem]
            exact jget?_setKey_ne _ _ _ _ (htag kv.1)

/-- The `value` placeholder never touches the `time` field. -/
theorem jget?_valueWrap (P : Point × Bool) (T : Option Json)
    (hT : jget? P.1 "time" = T) :
    jget? (if P.2 then P.1 else setKey P.1 "value" (.num 1)) "time" = T := by
  by_cases h : P.2 = true
  · rw [if_pos h]; exact hT
  · rw [if_neg h]
    rw [jget?_setKey_ne _ _ _ _ (by decide)]
    exact hT

theorem gpTarget_time (mkvs : List (String × Json)) (s : Point × Bool) :
    jget? (gpTarget mkvs s).1 "time" = jget? s.1 "time" := by
  unfold gpTarget
  cases ht : jget? mkvs "target" with
  | none => rfl
  | some tv =>
      cases tv with
      | obj tkvs =>
          show jget? (tkvs.foldl (gpStepTagged "target_") s).1 "time" = jget? s.1 "time"
          exact fold_gpStepTagged_time "target_"
            (fun s2 => append7_ne_time "target_" s2 rfl) tkvs s
      | null => rfl
      | bool b => rfl
      | num q => rfl
      | str s2 => rfl
      | arr l => rfl

theorem gpSource_time (mkvs : List (String × Json)) (s : Point × Bool) :
    jget? (gpSource mkvs s).1 "time" = jget? s.1 "time" := by
  unfold gpSource
  cases hs : jget? mkvs "source" with
  | none => rfl
  | some sv =>
      cases sv with
      | obj skvs =>
          show jget? (skvs.foldl (gpStepTagged "source_") s).1 "time" = jget? s.1 "time"
          exact fold_gpStepTagged_time "source_"
            (fun s2 => append7_ne_time "source_" s2 rfl) skvs s
      | null => rfl
      | bool b => rfl
      | num q => rfl
      | str s2 => rfl
      | arr l => rfl

theorem genericPoint_time (i : Nat) (e : TSEntry) (hsafe : entSafe e) :
    jget? (genericPoint i e) "time" = some (.num e.time) := by
  unfold genericPoint
  cases hm : e.msg with
  | obj mkvs =>
      refine jget?_valueWrap _ _ ?_
      rw [gpSource_time, gpTarget_time]
      rw [fold_gpStep1_time mkvs (hsafe mkvs hm)]
      exact jget?_time_base i e.time
  | null =>
      rw [jget?_setKey_ne _ _ _ _ (by decide)]
      exact jget?_time_base i e.time
  | bool b =>
      rw [jget?_setKey_ne _ _ _ _ (by decide)]
      exact jget?_time_base i e.time
  | num q =>
      rw [jget?_setKey_ne _ _ _ _ (by decide)]
      exact jget?_time_base i e.time
  | str s =>
      rw [jget?_setKey_ne _ _ _ _ (by decide)]
      exact jget?_time_base i e.time
  | arr l =>
      rw [jget?_setKey_ne _ _ _ _ (by decide)]
      exact jget?_time_base i e.time


theorem spEvent_time (base : Point) (tkvs : List (String × Json)) (p : Point)
    (h : spEvent base tkvs = .ok p) : jget? p "time" = jget? base "time" := by
  unfold spEvent at h
  cases he : jget? tkvs "event" with
  | none =>
      rw [he] at h
      have h2 : (Except.ok base : Except PyErr Point) = .ok p := h
      injection h2 with h3
      rw [← h3]
  | some v =>
      rw [he] at h
      have h2 : pyFloat v >>= (fun q => pure (setKey base "event" (Json.num q))) = .ok p := h
      rcases exceptBindOk h2 with ⟨q, hq, h3⟩
      have h4 : (Except.ok (setKey base "event" (Json.num q)) : Except PyErr Point) = .ok p := h3
      injection h4 with h5
      rw [← h5]
      exact jget?_setKey_ne _ _ _ _ (by decide)

theorem spThread_time (p1 : Point) (tkvs : List (String × Json)) (p : Point)
    (h : spThread p1 tkvs = .ok p) : jget? p "time" = jget? p1 "time" := by
  unfold spThread at h
  cases he : jget? tkvs "thread_id" with
  | none =>
      rw [he] at h
      have h2 : (Except.ok p1 : Except PyErr Point) = .ok p := h
      injection h2 with h3
      rw [← h3]
  | some v =>
      rw [he] at h
      have h2 : pyFloat v >>= (fun q => pure (setKey p1 "thread_id" (Json.num q))) = .ok p := h
      rcases exceptBindOk h2 with ⟨q, hq, h3⟩
      have h4 : (Except.ok (setKey p1 "thread_id" (Json.num q)) : Except PyErr Point) = .ok p := h3
      injection h4 with h5
      rw [← h5]
      exact jget?_setKey_ne _ _ _ _ (by decide)

theorem spFlag_time (key : String) (hkey : (key == "time") = false)
    (p : Point) (tkvs : List (String × Json)) :
    jget? (spFlag key p tkvs) "time" = jget? p "time" := by
  unfold spFlag
  cases hv : jget? tkvs key with
  | none => rfl
  | some v =>
      show jget? (setKey p key (.num (if truthy v then 1 else 0))) "time" = jget? p "time"
      exact jget?_setKey_ne _ _ _ _ hkey

theorem spObj_time (base : Point) (mkvs : List (String × Json)) (p : Point)
    (h : spObj base mkvs = .ok p) : jget? p "time" = jget? base "time" := by
  unfold spObj at h
  cases ht : jget? mkvs "target" with
  | none =>
      rw [ht] at h
      have h2 : (Except.ok base : Except PyErr Point) = .ok p := h
      injection h2 with h3
      rw [← h3]
  | some tv =>
      rw [ht] at h
      cases tv with
      | obj tkvs =>
          have h2 : spEvent base tkvs >>= (fun p1 => spThread p1 tkvs >>= (fun p2 =>
              pure (spFlag "error" (spFlag "server_ready" p2 tkvs) tkvs))) = .ok p := h
          rcases exceptBindOk h2 with ⟨p1, hp1, h3⟩
          rcases exceptBindOk h3 with ⟨p2, hp2, h4⟩
          have h5 : (Except.ok (spFlag "error" (spFlag "server_ready" p2 tkvs) tkvs) :
              Except PyErr Point) = .ok p := h4
          injection h5 with h6
          rw [← h6]
          rw [spFlag_time "error" (by decide), spFlag_time "server_ready" (by decide)]
          rw [spThread_time p1 tkvs p2 hp2]
          exact spEvent_time base tkvs p1 hp1
      | null =>
          have h2 : (Except.ok base : Except PyErr Point) = .ok p := h
          injection h2 with h3
          rw [← h3]
      | bool b =>
          have h2 : (Except.ok base : Except PyErr Point) = .ok p := h
          injection h2 with h3
          rw [← h3]
      | num q =>
          have h2 : (Except.ok base : Except PyErr Point) = .ok p := h
          injection h2 with h3
          rw [← h3]
      | str s =>
          have h2 : (Except.ok base : Except PyErr Point) = .ok p := h
          injection h2 with h3
          rw [← h3]
      | arr l =>
          have h2 : (Except.ok base : Except PyErr Point) = .ok p := h
          injection h2 with h3
          rw [← h3]

theorem specialPoint_time (i : Nat) (e : TSEntry) (p : Point)
    (h : specialPoint i e = .ok p) : jget? p "time" = some (.num e.time) := by
  obtain ⟨t, msg⟩ := e
  unfold specialPoint at h
  show jget? p "time" = some (.num t)
  cases msg with
  | obj mkvs =>
      have h2 : spObj [("index", Json.num (Dec.ofNat i)), ("time", Json.num t)] mkvs =
          .ok p := h
      rw [spObj_time _ _ _ h2]
      rfl
  | null =>
      have h2 : (Except.ok [("index", Json.num (Dec.ofNat i)), ("time", Json.num t)] :
          Except PyErr Point) = .ok p := h
      injection h2 with h3
      rw [← h3]
      rfl
  | bool b =>
      have h2 : (Except.ok [("index", Json.num (Dec.ofNat i)), ("time", Json.num t)] :
          Except PyErr Point) = .ok p := h
      injection h2 with h3
      rw [← h3]
      rfl
  | num q =>
      have h2 : (Except.ok [("index", Json.num (Dec.ofNat i)), ("time", Json.num t)] :
          Except PyErr Point) = .ok p := h
      injection h2 with h3
      rw [← h3]
      rfl
  | str s =>
      have h2 : (Except.ok [("index", Json.num (Dec.ofNat i)), ("time", Json.num t)] :
          Except PyErr Point) = .ok p := h
      injection h2 with h3
      rw [← h3]
      rfl
  | arr l =>
      have h2 : (Except.ok [("index", Json.num (Dec.ofNat i)), ("time", Json.num t)] :
          Except PyErr Point) = .ok p := h
      injection h2 with h3
      rw [← h3]
      rfl

theorem convertSpecialAux_mem_time (es : List TSEntry) :
    ∀ i pts, convertSpecialAux i es = .ok pts →
      ∀ p ∈ pts, ∃ e, e ∈ es ∧ jget? p "time" = some (.num e.time) := by
  induction es with
  | nil =>
      intro i pts h p hp
      have h2 : (Except.ok [] : Except PyErr (List Point)) = .ok pts := h
      injection h2 with h3
      rw [← h3] at hp
      cases hp
  | cons e rest ih =>
      intro i pts h p hp
      rw [convertSpecialAux] at h
      rcases exceptBindOk h with ⟨p0, hp0, h2⟩
      rcases exceptBindOk h2 with ⟨rest', hrest, h3⟩
      by_cases hlen : p0.length > 2
      · rw [if_pos hlen] at h3
        injection h3 with h4
        rw [← h4] at hp
        rcases List.mem_cons.mp hp with rfl | hp'
        · exact ⟨e, List.mem_cons_self _ _, specialPoint_time i e p hp0⟩
        · rcases ih (i + 1) rest' hrest p hp' with ⟨e', he', hte⟩
          exact ⟨e', List.mem_cons_of_mem _ he', hte⟩
      · rw [if_neg hlen] at h3
        injection h3 with h4
        rw [← h4] at hp
        rcases ih (i + 1) rest' hrest p hp with ⟨e', he', hte⟩
        exact ⟨e', List.mem_cons_of_mem _ he', hte⟩

theorem convertSpecialAux_pairwise (es : List TSEntry) :
    ∀ i pts, convertSpecialAux i es = .ok pts →
      es.Pairwise (fun a b => a.time.le b.time = true) →
      pts.Pairwise (fun p q => timeLeB p q = true) := by
  induction es with
  | nil =>
      intro i pts h _
      have h2 : (Except.ok [] : Except PyErr (List Point)) = .ok pts := h
      injection h2 with h3
      rw [← h3]
      exact List.Pairwise.nil
  | cons e rest ih =>
      intro i pts h hp
      rcases List.pairwise_cons.mp hp with ⟨hhead, htail⟩
      rw [convertSpecialAux] at h
      rcases exceptBindOk h with ⟨p0, hp0, h2⟩
      rcases exceptBindOk h2 with ⟨rest', hrest, h3⟩
      have hrestPW := ih (i + 1) rest' hrest htail
      by_cases hlen : p0.length > 2
      · rw [if_pos hlen] at h3
        injection h3 with h4
        rw [← h4]
        refine List.pairwise_cons.mpr ⟨?_, hrestPW⟩
        intro q hq
        rcases convertSpecialAux_mem_time rest (i + 1) rest' hrest q hq with ⟨e', he', hte⟩
        unfold timeLeB
        rw [specialPoint_time i e p0 hp0, hte]
        exact hhead e' he'
      · rw [if_neg hlen] at h3
        injection h3 with h4
        rw [← h4]
        exact hrestPW

theorem convertGenericAux_mem_time (es : List TSEntry) :
    ∀ i, (∀ e ∈ es, entSafe e) →
      ∀ p ∈ convertGenericAux i es, ∃ e, e ∈ es ∧ jget? p "time" = some (.num e.time) := by
  induction es with
  | nil =>
      intro i _ p hp
      cases hp
  | cons e rest ih =>
      intro i hsafe p hp
      rw [convertGenericAux] at hp
      rcases List.mem_cons.mp hp with rfl | hp'
      · exact ⟨e, List.mem_cons_self _ _,
          genericPoint_time i e (hsafe e (List.mem_cons_self _ _))⟩
      · rcases ih (i + 1) (fun x hx => hsafe x (List.mem_cons_of_mem _ hx)) p hp' with
          ⟨e', he', hte⟩
        exact ⟨e', List.mem_cons_of_mem _ he', hte⟩

theorem convertGenericAux_pairwise (es : List TSEntry) :
    ∀ i, (∀ e ∈ es, entSafe e) →
      es.Pairwise (fun a b => a.time.le b.time = true) →
      (convertGenericAux i es).Pairwise (fun p q => timeLeB p q = true) := by
  induction es with
  | nil =>
      intro i _ _
      exact List.Pairwise.nil
  | cons e rest ih =>
      intro i hsafe hp
      rcases List.pairwise_cons.mp hp with ⟨hhead, htail⟩
      rw [convertGenericAux]
      refine List.pairwise_cons.mpr
        ⟨?_, ih (i + 1) (fun x hx => hsafe x (List.mem_cons_of_mem _ hx)) htail⟩
      intro q hq
      rcases convertGenericAux_mem_time rest (i + 1)
        (fun x hx => hsafe x (List.mem_cons_of_mem _ hx)) q hq with ⟨e', he', hte⟩
      unfold timeLeB
      rw [genericPoint_time i e (hsafe e (List.mem_cons_self _ _)), hte]
      exact hhead e' he'

theorem groupsAppend_mem (gs : TSGroups) (k : HKey) (topic : Json) (ent : TSEntry) :
    ∀ g' ∈ groupsAppend gs k topic ent, ∀ e ∈ g'.2.2,
      (∃ g, g ∈ gs ∧ e ∈ g.2.2) ∨ e = ent := by
  induction gs with
  | nil =>
      intro g' hg' e he
      have hg2 : g' ∈ [(k, topic, [ent])] := hg'
      rcases List.mem_singleton.mp hg2 with rfl
      exact Or.inr (List.mem_singleton.mp he)
  | cons g rest ih =>
      obtain ⟨k', t', es⟩ := g
      intro g' hg' e he
      by_cases hk : k'.beq k = true
      · have hg2 : g' ∈ (k', t', es ++ [ent]) :: rest := by
          rw [groupsAppend] at hg'
          rw [if_pos hk] at hg'
          exact hg'
        rcases List.mem_cons.mp hg2 with rfl | hg3
        · rcases List.mem_append.mp he with h1 | h2
          · exact Or.inl ⟨(k', t', es), List.mem_cons_self _ _, h1⟩
          · exact Or.inr (List.mem_singleton.mp h2)
        · exact Or.inl ⟨g', List.mem_cons_of_mem _ hg3, he⟩
      · have hg2 : g' ∈ (k', t', es) :: groupsAppend rest k topic ent := by
          rw [groupsAppend] at hg'
          rw [if_neg hk] at hg'
          exact hg'
        rcases List.mem_cons.mp hg2 with rfl | hg3
        · exact Or.inl ⟨(k', t', es), List.mem_cons_self _ _, he⟩
        · rcases ih g' hg3 e he with ⟨g0, hg0, he0⟩ | rfl
          · exact Or.inl ⟨g0, List.mem_cons_of_mem _ hg0, he0⟩
          · exact Or.inr rfl

theorem tsGroupAdd_safe (gs : TSGroups) (topic mc : Json) (gs' : TSGroups)
    (hmc : ∀ mkvs, mc = Json.obj mkvs →
        (mkvs.any (fun kv => kv.1 == "time" && (numVal kv.2).isSome)) = false)
    (hgs : ∀ g ∈ gs, ∀ e ∈ g.2.2, entSafe e)
    (h : tsGroupAdd gs topic mc = .ok gs') :
    ∀ g ∈ gs', ∀ e ∈ g.2.2, entSafe e := by
  unfold tsGroupAdd at h
  rcases exceptBindOk h with ⟨k, hk, h2⟩
  rcases exceptBindOk h2 with ⟨tOpt, hT, h3⟩
  injection h3 with h4
  intro g hg e he
  rcases groupsAppend_mem gs k topic _ g (by rw [h4]; exact hg) e he with ⟨g0, hg0, he0⟩ | rfl
  · exact hgs g0 hg0 e he0
  · intro mkvs hmsg kv hkv hkvt
    have hmc2 : mc = Json.obj mkvs := hmsg
    have hany := hmc mkvs hmc2
    have hx := List.any_eq_false.mp hany kv hkv
    cases hnv : numVal kv.2 with
    | none => rfl
    | some q =>
        rw [hkvt, hnv] at hx
        simp at hx

theorem tsGroupStep_safe (gs : TSGroups) (m : Json) (gs' : TSGroups)
    (hm : bodyHasNumericTime m = false)
    (hgs : ∀ g ∈ gs, ∀ e ∈ g.2.2, entSafe e)
    (h : tsGroupStep gs m = .ok gs') :
    ∀ g ∈ gs', ∀ e ∈ g.2.2, entSafe e := by
  unfold tsGroupStep at h
  cases hp : publishParts m with
  | none =>
      rw [hp] at h
      have h2 : (Except.ok gs : Except PyErr TSGroups) = .ok gs' := h
      injection h2 with h3
      rw [← h3]
      exact hgs
  | some tm =>
      obtain ⟨topic, mc⟩ := tm
      rw [hp] at h
      have h2 : tsGroupAdd gs topic mc = .ok gs' := h
      refine tsGroupAdd_safe gs topic mc gs' ?_ hgs h2
      intro mkvs hmc2
      unfold bodyHasNumericTime at hm
      rw [hp, hmc2] at hm
      exact hm

theorem tsGroups_fold_safe (xs : List Json) :
    ∀ gs0 gs, (∀ m ∈ xs, bodyHasNumericTime m = false) →
      (∀ g ∈ gs0, ∀ e ∈ g.2.2, entSafe e) →
      xs.foldlM tsGroupStep gs0 = .ok gs →
      ∀ g ∈ gs, ∀ e ∈ g.2.2, entSafe e := by
  induction xs with
  | nil =>
      intro gs0 gs _ h0 h
      have h2 : (Except.ok gs0 : Except PyErr TSGroups) = .ok gs := h
      injection h2 with h3
      rw [← h3]
      exact h0
  | cons m ms ih =>
      intro gs0 gs hms h0 h
      rw [List.foldlM_cons] at h
      rcases exceptBindOk h with ⟨gs1, h1, h2⟩
      exact ih gs1 gs (fun x hx => hms x (List.mem_cons_of_mem _ hx))
        (tsGroupStep_safe gs0 m gs1 (hms m (List.mem_cons_self _ _)) h0 h1) h2

theorem convertGroup_props (topic : Json) (es : List TSEntry) (pts : List Point)
    (hsafe : ∀ e ∈ es, entSafe e)
    (h : convertGroup topic es = .ok (some pts)) :
    (∀ p ∈ pts, (jget? p "time").isSome = true) ∧
      pts.Pairwise (fun p q => timeLeB p q = true) := by
  have h' : (if es.isEmpty then (Except.ok none : Except PyErr (Option (List Point)))
      else if pyEq topic (.str "/capabilities/events") then
        convertSpecialAux 0 (sortByKey TSEntry.time es) >>= (fun ps =>
          if ps.isEmpty then .ok none else .ok (some ps))
      else if (convertGenericAux 0 (sortByKey TSEntry.time es)).isEmpty then .ok none
      else .ok (some (convertGenericAux 0 (sortByKey TSEntry.time es)))) = .ok (some pts) := h
  clear h
  have hsorted := pairwise_sortByKey TSEntry.time es
  have hsafe' : ∀ e ∈ sortByKey TSEntry.time es, entSafe e :=
    fun e he => hsafe e ((mem_sortByKey TSEntry.time es e).mp he)
  by_cases hne : es.isEmpty = true
  · rw [if_pos hne] at h'
    injection h' with h2
    simp at h2
  · rw [if_neg hne] at h'
    by_cases hcap : pyEq topic (.str "/capabilities/events") = true
    · rw [if_pos hcap] at h'
      rcases exceptBindOk h' with ⟨ps, hconv, h2⟩
      by_cases hemp : ps.isEmpty = true
      · rw [if_pos hemp] at h2
        injection h2 with h3
        simp at h3
      · rw [if_neg hemp] at h2
        injection h2 with h3
        injection h3 with h4
        rw [← h4]
        constructor
        · intro p hp
          rcases convertSpecialAux_mem_time _ 0 ps hconv p hp with ⟨e', _, hte⟩
          rw [hte]
          rfl
        · exact convertSpecialAux_pairwise _ 0 ps hconv hsorted
    · rw [if_neg hcap] at h'
      by_cases hemp : (convertGenericAux 0 (sortByKey TSEntry.time es)).isEmpty = true
      · rw [if_pos hemp] at h'
        injection h' with h3
        simp at h3
      · rw [if_neg hemp] at h'
        injection h' with h3
        injection h3 with h4
        rw [← h4]
        constructor
        · intro p hp
          rcases convertGenericAux_mem_time _ 0 hsafe' p hp with ⟨e', _, hte⟩
          rw [hte]
          rfl
        · exact convertGenericAux_pairwise _ 0 hsafe' hsorted

theorem tsList_fold_props (gs : List (HKey × Json × List TSEntry)) :
    ∀ acc out,
      (∀ t ∈ acc, (∀ p ∈ t.2.2, (jget? p "time").isSome = true) ∧
        t.2.2.Pairwise (fun p q => timeLeB p q = true)) →
      (∀ g ∈ gs, ∀ e ∈ g.2.2, entSafe e) →
      gs.foldlM (fun acc g => do
          match ← convertGroup g.2.1 g.2.2 with
          | some pts => .ok (acc ++ [(g.1, g.2.1, pts)])
          | none => .ok acc) acc = .ok out →
      ∀ t ∈ out, (∀ p ∈ t.2.2, (jget? p "time").isSome = true) ∧
        t.2.2.Pairwise (fun p q => timeLeB p q = true) := by
  induction gs with
  | nil =>
      intro acc out hacc _ h
      have h2 : (Except.ok acc : Except PyErr TimeSeries) = .ok out := h
      injection h2 with h3
      rw [← h3]
      exact hacc
  | cons g gs ih =>
      intro acc out hacc hsafe h
      rw [List.foldlM_cons] at h
      rcases exceptBindOk h with ⟨acc1, h1, h2⟩
      rcases exceptBindOk h1 with ⟨og, hog, h1'⟩
      refine ih acc1 out ?_ (fun x hx => hsafe x (List.mem_cons_of_mem _ hx)) h2
      cases og with
      | none =>
          have h3 : (Except.ok acc : Except PyErr TimeSeries) = .ok acc1 := h1'
          injection h3 with h4
          rw [← h4]
          exact hacc
      | some pts =>
          have h3 : (Except.ok (acc ++ [(g.1, g.2.1, pts)]) : Except PyErr TimeSeries) =
              .ok acc1 := h1'
          injection h3 with h4
          rw [← h4]
          intro t ht
          rcases List.mem_append.mp ht with h5 | h5
          · exact hacc t h5
          · rcases List.mem_singleton.mp h5 with rfl
            exact convertGroup_props g.2.1 g.2.2 pts (hsafe g (List.mem_cons_self _ _)) hog

/-- Claim C5 (amended): in the ROSBridge list branch, when no message
body carries a first-level numeric field literally named `time`, every
point of the extracted series has a `time` field and each topic's
`time` values are non-decreasing.  Without that restriction the claim
fails: a numeric body field named `time` overwrites the normalized
timestamp after sorting, and the generic dict branch never sorts. -/
theorem time_series_sorted_no_time_field (d : Json) (xs : List Json) (ts : TimeSeries)
    (h1 : rosListOf d = some xs)
    (h2 : extractTimeSeries d = .ok ts)
    (h3 : ∀ m ∈ xs, bodyHasNumericTime m = false) :
    ∀ t ∈ ts, (∀ p ∈ t.2.2, (jget? p "time").isSome = true) ∧ ptsTimesNonDec t.2.2 := by
  unfold extractTimeSeries at h2
  rw [h1] at h2
  have h2' : extractTimeSeriesList xs = .ok ts := h2
  unfold extractTimeSeriesList at h2'
  rcases exceptBindOk h2' with ⟨gs, hgs, hconv⟩
  have hsafe := tsGroups_fold_safe xs [] gs h3
    (fun g hg => absurd hg (List.not_mem_nil g)) hgs
  have hmain := tsList_fold_props gs [] ts
    (fun t ht => absurd ht (List.not_mem_nil t)) hsafe hconv
  intro t ht
  exact ⟨(hmain t ht).1, List.Pairwise.chain' (hmain t ht).2⟩

def c5Msg (n : Int) : Json :=
  .obj [("op", .str "publish"), ("topic", .str "/telemetry"),
        ("msg", .obj [("time", .num ⟨n, 0⟩)])]

/-- Claim C5 counterexample: two publish messages on one topic whose
bodies carry the numeric field `time: 99` and `time: 1`.  Both lack
header stamps, so they normalize to times 0 and 1 and sort in that
order, but the generic flattening then overwrites each point's `time`
with the body value, so the extracted series carries times [99, 1] —
strictly decreasing, refuting the claimed non-decreasing guarantee. -/
theorem time_series_unsorted_counterexample :
    extractTimeSeries (.arr [c5Msg 99, c5Msg 1]) = .ok
      [(.str "/telemetry", .str "/telemetry",
        [[("index", .num (Dec.ofNat 0)), ("time", .num ⟨99, 0⟩)],
         [("index", .num (Dec.ofNat 1)), ("time", .num ⟨1, 0⟩)]])] ∧
    ¬ ptsTimesNonDec
      [[("index", Json.num (Dec.ofNat 0)), ("time", Json.num ⟨99, 0⟩)],
       [("index", Json.num (Dec.ofNat 1)), ("time", Json.num ⟨1, 0⟩)]] := by
  constructor
  · rfl
  · intro hchain
    rw [ptsTimesNonDec, List.chain'_cons] at hchain
    exact absurd hchain.1 (by decide)

def c5WitMsg (secs : Int) : Json :=
  .obj [("op", .str "publish"), ("topic", .str "/pose"),
        ("msg", .obj [("header", .obj [("stamp",
          .obj [("secs", .num ⟨secs, 0⟩), ("nsecs", .num ⟨0, 0⟩)])])])]

def c5Wit : Json := .arr [c5WitMsg 5, c5WitMsg 2]

theorem time_series_sorted_no_time_field_witness :
    ∃ ts, rosListOf c5Wit = some [c5WitMsg 5, c5WitMsg 2] ∧
      extractTimeSeries c5Wit = .ok ts ∧
      (∀ m ∈ [c5WitMsg 5, c5WitMsg 2], bodyHasNumericTime m = false) ∧
      ∀ t ∈ ts, (∀ p ∈ t.2.2, (jget? p "time").isSome = true) ∧ ptsTimesNonDec t.2.2 :=
  ⟨_, rfl, rfl, by decide, time_series_sorted_no_time_field c5Wit _ _ rfl rfl (by decide)⟩

end RV
